import Mathlib

/-!
Verification of the CDMX Metro A* routing backend (`main.py`).

The development shallowly embeds the routing core:
station catalog and edge construction (`add_line`, `TRANSFERS`),
the per-edge cost model, the A* search loop (modelled with explicit
fuel, since the Python `while` loop has no syntactic bound), the
path reconstruction, and the itinerary assembly, together with the
degenerate-request and error handling of `compute_route`.
Python floats are modelled as real numbers; `math.hypot` becomes
`Real.sqrt` of the sum of squares; `math.inf` becomes `⊤ : WithTop ℝ`.
-/

namespace Metro

open scoped Classical

/-- Mirror of the `Station` pydantic model. -/
structure Station where
  id : String
  name : String
  line : String
  color : String
  x : ℝ
  y : ℝ
  order : ℕ
  accessible : Bool := true

/-- An edge is a `(u, v, kind)` triple, kind `"line"` or `"transfer"`,
exactly the tuples stored in the Python `EDGES` list. -/
abbrev Edge := String × String × String

/-- Station tuples passed to add_line for line 1 (id, name, x, y). -/
def line1_data : List (String × String × ℝ × ℝ) := [
  ("l1_observatorio", "Observatorio", 4, 44),
  ("l1_tacubaya", "Tacubaya", 12, 44),
  ("l1_juanacatlan", "Juanacatlán", 20, 44),
  ("l1_chapultepec", "Chapultepec", 28, 44),
  ("l1_sevilla", "Sevilla", 36, 44),
  ("l1_insurgentes", "Insurgentes", 44, 44),
  ("l1_cuauhtemoc", "Cuauhtémoc", 52, 44),
  ("l1_balderas", "Balderas", 58, 44),
  ("l1_salto_del_agua", "Salto del Agua", 62, 44),
  ("l1_isabel_la_catolica", "Isabel la Católica", 66, 44),
  ("l1_pino_suarez", "Pino Suárez", 70, 44),
  ("l1_merced", "Merced", 74, 44),
  ("l1_candelaria", "Candelaria", 78, 44),
  ("l1_san_lazaro", "San Lázaro", 82, 44),
  ("l1_moctezuma", "Moctezuma", 86, 44),
  ("l1_balbuena", "Balbuena", 90, 44),
  ("l1_boulevard_pz", "Boulevard Pto. Aéreo", 94, 44),
  ("l1_puebla", "Puebla", 96, 44),
  ("l1_pantitlan", "Pantitlán", 98, 44)
]

/-- Station tuples passed to add_line for line 2 (id, name, x, y). -/
def line2_data : List (String × String × ℝ × ℝ) := [
  ("l2_cuatro_caminos", "Cuatro Caminos", 2, 72),
  ("l2_panteones", "Panteones", 8, 68),
  ("l2_tacuba", "Tacuba", 12, 64),
  ("l2_cuitlahuac", "Cuitláhuac", 18, 60),
  ("l2_popotla", "Popotla", 22, 58),
  ("l2_colegio_militar", "Colegio Militar", 26, 56),
  ("l2_normal", "Normal", 30, 54),
  ("l2_san_cosme", "San Cosme", 38, 52),
  ("l2_revolucion", "Revolución", 46, 50),
  ("l2_hidalgo", "Hidalgo", 54, 48),
  ("l2_bellas_artes", "Bellas Artes", 60, 46),
  ("l2_allende", "Allende", 66, 46),
  ("l2_zocalo", "Zócalo/Tenochtitlan", 70, 48),
  ("l2_san_antonio_abad", "San Antonio Abad", 70, 56),
  ("l2_chabacano", "Chabacano", 70, 62),
  ("l2_ermita", "Ermita", 70, 72),
  ("l2_general_anaya", "General Anaya", 70, 78),
  ("l2_tasquena", "Tasqueña", 70, 84)
]

/-- Station tuples passed to add_line for line 3 (id, name, x, y). -/
def line3_data : List (String × String × ℝ × ℝ) := [
  ("l3_indios_verdes", "Indios Verdes", 58, 4),
  ("l3_dep_18_marzo", "Deportivo 18 de Marzo", 58, 10),
  ("l3_la_raza", "La Raza", 58, 16),
  ("l3_tlatelolco", "Tlatelolco", 58, 22),
  ("l3_guerrero", "Guerrero", 58, 28),
  ("l3_hidalgo", "Hidalgo", 56, 48),
  ("l3_juarez", "Juárez", 60, 42),
  ("l3_ninos_heroes", "Niños Héroes", 62, 38),
  ("l3_c_medico", "Centro Médico", 66, 34),
  ("l3_etiopia", "Etiopía", 66, 28),
  ("l3_eugenia", "Eugenia", 64, 24),
  ("l3_zapata", "Zapata", 60, 22),
  ("l3_division", "División del Norte", 56, 20),
  ("l3_coyoacan", "Coyoacán", 52, 18),
  ("l3_ma_quevedo", "Miguel Ángel de Quevedo", 48, 16),
  ("l3_copilco", "Copilco", 44, 14),
  ("l3_universidad", "Universidad", 40, 12)
]

/-- Station tuples passed to add_line for line 4 (id, name, x, y). -/
def line4_data : List (String × String × ℝ × ℝ) := [
  ("l4_martin_carrera", "Martín Carrera", 82, 8),
  ("l4_talisman", "Talismán", 80, 14),
  ("l4_bondojito", "Bondojito", 78, 18),
  ("l4_consulado", "Consulado", 76, 22),
  ("l4_morelos", "Morelos", 72, 32),
  ("l4_candelaria", "Candelaria", 78, 44),
  ("l4_fray_servando", "Fray Servando", 76, 50),
  ("l4_jamaica", "Jamaica", 74, 56),
  ("l4_santa_anita", "Santa Anita", 72, 62)
]

/-- Station tuples passed to add_line for line 5 (id, name, x, y). -/
def line5_data : List (String × String × ℝ × ℝ) := [
  ("l5_poli", "Politécnico", 46, 6),
  ("l5_inst_petroleo", "Instituto del Petróleo", 52, 10),
  ("l5_la_raza", "La Raza", 58, 16),
  ("l5_misterios", "Misterios", 66, 18),
  ("l5_consulado", "Consulado", 76, 22),
  ("l5_aragon", "Aragón", 84, 24),
  ("l5_oceania", "Oceanía", 90, 28),
  ("l5_terminal_aerea", "Terminal Aérea", 92, 34),
  ("l5_hangares", "Hangares", 94, 38),
  ("l5_pantitlan", "Pantitlán", 98, 44)
]

/-- Station tuples passed to add_line for line 6 (id, name, x, y). -/
def line6_data : List (String × String × ℝ × ℝ) := [
  ("l6_el_rosario", "El Rosario", 8, 8),
  ("l6_tezozomoc", "Tezozómoc", 14, 10),
  ("l6_azcapotzalco", "Azcapotzalco", 20, 12),
  ("l6_ferreria", "Ferrería/Arena CDMX", 28, 14),
  ("l6_vallejo", "Vallejo", 36, 16),
  ("l6_inst_petroleo", "Instituto del Petróleo", 52, 10),
  ("l6_lindavista", "Lindavista", 62, 12),
  ("l6_dep_18_marzo", "Deportivo 18 de Marzo", 58, 10),
  ("l6_la_villa", "La Villa–Basílica", 70, 10),
  ("l6_martin_carrera", "Martín Carrera", 82, 8)
]

/-- Station tuples passed to add_line for line 7 (id, name, x, y). -/
def line7_data : List (String × String × ℝ × ℝ) := [
  ("l7_el_rosario", "El Rosario", 8, 8),
  ("l7_aquiles_serdan", "Aquiles Serdán", 10, 20),
  ("l7_tacuba", "Tacuba", 12, 64),
  ("l7_san_joaquin", "San Joaquín", 18, 58),
  ("l7_polanco", "Polanco", 24, 52),
  ("l7_auditorio", "Auditorio", 28, 48),
  ("l7_constituyentes", "Constituyentes", 20, 44),
  ("l7_tacubaya", "Tacubaya", 12, 44),
  ("l7_san_pedro_pinos", "San Pedro de los Pinos", 12, 52),
  ("l7_san_antonio", "San Antonio", 12, 60),
  ("l7_mixcoac", "Mixcoac", 12, 68),
  ("l7_barranca", "Barranca del Muerto", 12, 78)
]

/-- Station tuples passed to add_line for line 8 (id, name, x, y). -/
def line8_data : List (String × String × ℝ × ℝ) := [
  ("l8_garibaldi", "Garibaldi", 62, 36),
  ("l8_bellas_artes", "Bellas Artes", 60, 46),
  ("l8_san_juan_letran", "San Juan de Letrán", 62, 48),
  ("l8_salto_del_agua", "Salto del Agua", 62, 44),
  ("l8_doctores", "Doctores", 64, 54),
  ("l8_obrera", "Obrera", 66, 58),
  ("l8_chabacano", "Chabacano", 70, 62),
  ("l8_la_viga", "La Viga", 72, 66),
  ("l8_santa_anita", "Santa Anita", 72, 62),
  ("l8_coyuya", "Coyuya", 76, 66),
  ("l8_iztacalco", "Iztacalco", 80, 68),
  ("l8_apatlaco", "Apatlaco", 84, 70),
  ("l8_aculco", "Aculco", 86, 72),
  ("l8_escuadron201", "Escuadrón 201", 88, 74),
  ("l8_atlalilco", "Atlalilco", 90, 76),
  ("l8_iztapalapa", "Iztapalapa", 92, 78),
  ("l8_cerro_estrella", "Cerro de la Estrella", 94, 80),
  ("l8_uam_i", "UAM I", 96, 82),
  ("l8_const_1917", "Constitución de 1917", 98, 84)
]

/-- Station tuples passed to add_line for line 9 (id, name, x, y). -/
def line9_data : List (String × String × ℝ × ℝ) := [
  ("l9_tacubaya", "Tacubaya", 12, 44),
  ("l9_patriotismo", "Patriotismo", 24, 46),
  ("l9_chilpancingo", "Chilpancingo", 36, 48),
  ("l9_c_medico", "Centro Médico", 66, 34),
  ("l9_lazaro_cardenas", "Lázaro Cárdenas", 72, 40),
  ("l9_chabacano", "Chabacano", 70, 62),
  ("l9_jamaica", "Jamaica", 74, 56),
  ("l9_mixiuhca", "Mixiuhca", 86, 48),
  ("l9_velodromo", "Velódromo", 90, 46),
  ("l9_ciudad_deportiva", "Ciudad Deportiva", 94, 46),
  ("l9_puebla", "Puebla", 96, 44),
  ("l9_pantitlan", "Pantitlán", 98, 44)
]

/-- Station tuples passed to add_line for line 12 (id, name, x, y). -/
def line12_data : List (String × String × ℝ × ℝ) := [
  ("l12_mixcoac", "Mixcoac", 12, 68),
  ("l12_insurgentes_sur", "Insurgentes Sur", 20, 66),
  ("l12_h20nov", "Hospital 20 de Noviembre", 28, 64),
  ("l12_zapata", "Zapata", 60, 22),
  ("l12_parque_venados", "Parque de los Venados", 64, 20),
  ("l12_eje_central", "Eje Central", 68, 18),
  ("l12_ermita", "Ermita", 70, 72),
  ("l12_mexicaltzingo", "Mexicaltzingo", 78, 74),
  ("l12_atlalilco", "Atlalilco", 90, 76),
  ("l12_culhuacan", "Culhuacán", 88, 72),
  ("l12_san_andres", "San Andrés Tomatlán", 86, 70),
  ("l12_lomas_estrella", "Lomas Estrella", 84, 68),
  ("l12_calle_11", "Calle 11", 82, 66),
  ("l12_periferico", "Periférico Oriente", 80, 64),
  ("l12_tezonco", "Tezonco", 78, 62),
  ("l12_olivos", "Olivos", 76, 60),
  ("l12_nopalera", "Nopalera", 74, 58),
  ("l12_zapotitlan", "Zapotitlán", 72, 56),
  ("l12_tlaltenco", "Tlaltenco", 70, 54),
  ("l12_tlahuac", "Tláhuac", 68, 52)
]

/-- Station tuples passed to add_line for line A (id, name, x, y). -/
def lineA_data : List (String × String × ℝ × ℝ) := [
  ("la_pantitlan", "Pantitlán", 98, 44),
  ("la_agricola", "Agrícola Oriental", 96, 48),
  ("la_canal_san_juan", "Canal de San Juan", 94, 52),
  ("la_tepaclates", "Tepalcates", 92, 56),
  ("la_guelatao", "Guelatao", 90, 60),
  ("la_penon_viejo", "Peñón Viejo", 88, 64),
  ("la_acatitla", "Acatitla", 86, 68),
  ("la_santa_marta", "Santa Marta", 84, 72),
  ("la_la_paz", "La Paz", 82, 78)
]

/-- Station tuples passed to add_line for line B (id, name, x, y). -/
def lineB_data : List (String × String × ℝ × ℝ) := [
  ("lb_buenavista", "Buenavista", 52, 34),
  ("lb_guerrero", "Guerrero", 58, 28),
  ("lb_garibaldi", "Garibaldi", 62, 36),
  ("lb_lagunilla", "Lagunilla", 66, 34),
  ("lb_tepito", "Tepito", 68, 32),
  ("lb_morelos", "Morelos", 72, 32),
  ("lb_san_lazaro", "San Lázaro", 82, 44),
  ("lb_r_flores_magon", "R. Flores Magón", 86, 38),
  ("lb_romero_rubio", "Romero Rubio", 88, 34),
  ("lb_oceania", "Oceanía", 90, 28),
  ("lb_dep_oceania", "Deportivo Oceanía", 92, 22),
  ("lb_bosque_aragon", "Bosque de Aragón", 94, 18),
  ("lb_villa_aragon", "Villa de Aragón", 96, 16),
  ("lb_nego", "Nezahualcóyotl", 98, 14),
  ("lb_impulsora", "Impulsora", 98, 12),
  ("lb_rio_remedios", "Río de los Remedios", 98, 10),
  ("lb_muzquiz", "Múzquiz", 98, 8),
  ("lb_ciudad_azteca", "Ciudad Azteca", 98, 6)
]

/-- The TRANSFERS pair list (bidirectional transfer declarations). -/
def TRANSFERS : List (String × String) := [
  ("l1_tacubaya", "l7_tacubaya"),
  ("l1_tacubaya", "l9_tacubaya"),
  ("l7_tacubaya", "l9_tacubaya"),
  ("l1_pantitlan", "l5_pantitlan"),
  ("l1_pantitlan", "l9_pantitlan"),
  ("l1_pantitlan", "la_pantitlan"),
  ("l5_pantitlan", "l9_pantitlan"),
  ("l5_pantitlan", "la_pantitlan"),
  ("l9_pantitlan", "la_pantitlan"),
  ("l2_hidalgo", "l3_hidalgo"),
  ("l2_bellas_artes", "l8_bellas_artes"),
  ("l1_pino_suarez", "l2_san_antonio_abad"),
  ("l2_chabacano", "l8_chabacano"),
  ("l2_chabacano", "l9_chabacano"),
  ("l8_chabacano", "l9_chabacano"),
  ("l1_candelaria", "l4_candelaria"),
  ("l4_jamaica", "l9_jamaica"),
  ("l4_santa_anita", "l8_santa_anita"),
  ("l4_consulado", "l5_consulado"),
  ("l5_oceania", "lb_oceania"),
  ("l1_san_lazaro", "lb_san_lazaro"),
  ("l4_morelos", "lb_morelos"),
  ("l3_guerrero", "lb_guerrero"),
  ("l8_garibaldi", "lb_garibaldi"),
  ("l3_zapata", "l12_zapata"),
  ("l7_mixcoac", "l12_mixcoac"),
  ("l3_c_medico", "l9_c_medico"),
  ("l1_balderas", "l3_juarez")
]

-- LINE_COLORS lookup table from the source.
def LINE_COLORS : List (String × String) := [
  ("1", "#E03C8A"),
  ("2", "#003CA6"),
  ("3", "#6EBD45"),
  ("4", "#A7D5EB"),
  ("5", "#FFCE00"),
  ("6", "#D52B1E"),
  ("7", "#F5A300"),
  ("8", "#00A94F"),
  ("9", "#A05D2D"),
  ("10", "#9D9D9D"),
  ("11", "#9D9D9D"),
  ("12", "#C6B200"),
  ("A", "#9F69B5"),
  ("B", "#7B7D7D")
]
/-- `LINE_COLORS[line]` lookup used by `add_line`. -/
def colorOf (line : String) : String :=
  ((LINE_COLORS.find? (fun p => p.1 == line)).map (fun p => p.2)).getD ""

/-- The stations appended to `STATIONS` by one `add_line(line, names)` call:
each tuple becomes a `Station` with 1-based `order` along the line. -/
def add_line_stations (line : String) (names : List (String × String × ℝ × ℝ)) :
    List Station :=
  names.mapIdx (fun i p =>
    { id := p.1, name := p.2.1, line := line, color := colorOf line,
      x := p.2.2.1, y := p.2.2.2, order := i + 1, accessible := true })

/-- The edges appended to `EDGES` by one `add_line` call: consecutive station
ids connected bidirectionally with kind `"line"`. -/
def add_line_edges (names : List (String × String × ℝ × ℝ)) : List Edge :=
  let ids := names.map (fun p => p.1)
  (ids.zip ids.tail).flatMap (fun ab => [(ab.1, ab.2, "line"), (ab.2, ab.1, "line")])

/-- The global `STATIONS` list after all twelve `add_line` calls. -/
def STATIONS : List Station :=
  add_line_stations "1" line1_data ++ add_line_stations "2" line2_data ++
  add_line_stations "3" line3_data ++ add_line_stations "4" line4_data ++
  add_line_stations "5" line5_data ++ add_line_stations "6" line6_data ++
  add_line_stations "7" line7_data ++ add_line_stations "8" line8_data ++
  add_line_stations "9" line9_data ++ add_line_stations "12" line12_data ++
  add_line_stations "A" lineA_data ++ add_line_stations "B" lineB_data

/-- `STATION_BY_ID` lookup (the dict `{s.id: s for s in STATIONS}`;
station ids are pairwise distinct, so first match is the dict entry). -/
def findStation (sid : String) : Option Station :=
  STATIONS.find? (fun s => s.id == sid)

/-- Total version of the `STATION_BY_ID[sid]` lookup.  The Python code only
performs it on ids that are present, so the default is never produced. -/
def stationOf (sid : String) : Station :=
  (findStation sid).getD { id := "", name := "", line := "", color := "",
                           x := 0, y := 0, order := 0, accessible := true }

/-- The transfer edges appended to `EDGES`: each `TRANSFERS` pair whose two
endpoints are both in the catalog contributes both directions. -/
def transferEdges : List Edge :=
  TRANSFERS.flatMap (fun ab =>
    if (findStation ab.1).isSome ∧ (findStation ab.2).isSome then
      [(ab.1, ab.2, "transfer"), (ab.2, ab.1, "transfer")]
    else [])

/-- The global `EDGES` list: line edges from each `add_line` call in order,
then the transfer edges. -/
def EDGES : List Edge :=
  add_line_edges line1_data ++ add_line_edges line2_data ++
  add_line_edges line3_data ++ add_line_edges line4_data ++
  add_line_edges line5_data ++ add_line_edges line6_data ++
  add_line_edges line7_data ++ add_line_edges line8_data ++
  add_line_edges line9_data ++ add_line_edges line12_data ++
  add_line_edges lineA_data ++ add_line_edges lineB_data ++ transferEdges

/-- `dist(a, b) = math.hypot(a.x - b.x, a.y - b.y)`. -/
noncomputable def dist2 (a b : Station) : ℝ :=
  Real.sqrt ((a.x - b.x) ^ 2 + (a.y - b.y) ^ 2)

/-- Mirror of the `RouteOptions` pydantic model with its defaults. -/
structure RouteOptions where
  transfer_penalty : ℝ := 5
  mobility : String := "normal"
  time_of_day : String := "offpeak"
  prefer_fewer_transfers : Bool := false

/-- Mirror of the `RouteRequest` model. -/
structure RouteRequest where
  origin_id : String
  destination_id : String
  options : RouteOptions := {}

/-- Mirror of the `RouteSegment` model. -/
structure RouteSegment where
  from_id : String
  to_id : String
  type : String
  line : Option String := none
  distance : ℝ
  cost : ℝ

/-- Mirror of the `RouteResult` model. -/
structure RouteResult where
  path : List String
  segments : List RouteSegment
  total_distance : ℝ
  total_cost : ℝ
  transfers : ℕ
  lines_used : List String

/-- The two `HTTPException`s raised by the routing core:
404 "Station not found" and 400 "No route found". -/
inductive Err where
  | stationNotFound
  | noRouteFound
deriving DecidableEq

/-- The per-edge cost computed while building the `neighbors` map
(lines 419-434): Euclidean base, transfer penalty, reduced-mobility
multiplier on transfer edges, peak multiplier on line edges of lines 3/9. -/
noncomputable def edgeCost (options : RouteOptions) (su sv : Station)
    (etype : String) : ℝ :=
  let base := dist2 su sv
  let cost1 := if etype = "transfer" then base + options.transfer_penalty else base
  let cost2 := if options.mobility = "reduced" ∧ etype = "transfer"
               then cost1 * 1.5 else cost1
  if options.time_of_day = "peak" ∧ etype = "line" ∧ (su.line = "3" ∨ su.line = "9")
  then cost2 * 1.15 else cost2

/-- Edge-kind re-derivation used by the itinerary assembly (lines 485-489):
`"transfer"` iff `(a, b, 'transfer') in EDGES`, else `"line"`. -/
def kindOf (a b : String) : String :=
  if ((a, b, "transfer") : Edge) ∈ EDGES then "transfer" else "line"

/-- The per-segment cost recomputed by the assembler (lines 490-499),
written with the assembler's own branch structure. -/
noncomputable def segCost (options : RouteOptions) (a b : String)
    (etype : String) : ℝ :=
  let d := dist2 (stationOf a) (stationOf b)
  if etype = "transfer" then
    let c := d + options.transfer_penalty
    if options.mobility = "reduced" then c * 1.5 else c
  else
    if options.time_of_day = "peak" ∧ ((stationOf a).line = "3" ∨ (stationOf a).line = "9")
    then d * 1.15 else d

/-- `round(x, 3)`: totals are reported rounded to three decimals. -/
noncomputable def round3 (x : ℝ) : ℝ := (round (x * 1000) : ℝ) / 1000

/-- One reported segment for a consecutive path pair (lines 484-503). -/
noncomputable def mkSegment (options : RouteOptions) (a b : String) : RouteSegment :=
  let etype := kindOf a b
  { from_id := a, to_id := b, type := etype,
    line := if etype = "transfer" then none else some (stationOf a).line,
    distance := dist2 (stationOf a) (stationOf b),
    cost := segCost options a b etype }

/-- Consecutive pairs of a path (`zip(path_ids[:-1], path_ids[1:])`). -/
def pathPairs (p : List String) : List (String × String) := p.zip p.tail

/-- First-occurrence collection of the lines of line segments (lines 500-501). -/
def linesUsed (segs : List RouteSegment) : List String :=
  segs.foldl (fun acc s =>
    if s.type = "transfer" then acc
    else match s.line with
      | some l => if l ∈ acc then acc else acc ++ [l]
      | none => acc) []

/-- The itinerary assembly (lines 477-514): segments for each consecutive
pair, rounded totals, transfer count and lines used. -/
noncomputable def assembleResult (options : RouteOptions) (path_ids : List String) :
    RouteResult :=
  let segs := (pathPairs path_ids).map (fun ab => mkSegment options ab.1 ab.2)
  { path := path_ids,
    segments := segs,
    total_distance := round3 ((segs.map (fun s => s.distance)).sum),
    total_cost := round3 ((segs.map (fun s => s.cost)).sum),
    transfers := segs.countP (fun s => s.type == "transfer"),
    lines_used := linesUsed segs }

/-- The per-request `neighbors` adjacency map (lines 418-435): entries
`(v, step_cost, etype, line)` for each edge leaving `u`, in `EDGES` order. -/
noncomputable def neighborsOf (options : RouteOptions) (u : String) :
    List (String × ℝ × String × Option String) :=
  EDGES.filterMap (fun e =>
    if e.1 = u then
      some (e.2.1, edgeCost options (stationOf e.1) (stationOf e.2.1) e.2.2,
            e.2.2, if e.2.2 = "transfer" then none else some (stationOf e.1).line)
    else none)

/-- Search state of the A* loop: the open set (as a duplicate-free list),
the predecessor map, g-scores and f-scores (`⊤` is `math.inf`), and the
per-node transfer counts used as selection tie-breaker. -/
structure SState where
  openl : List String
  cameFrom : String → Option String
  g : String → WithTop ℝ
  f : String → WithTop ℝ
  tc : String → ℕ

/-- Initial search state (lines 438-445). -/
noncomputable def initState (origin_id : String) (start goal : Station) : SState :=
  { openl := [origin_id],
    cameFrom := fun _ => none,
    g := fun sid => if sid = origin_id then (0 : WithTop ℝ) else ⊤,
    f := fun sid => if sid = origin_id then ((dist2 start goal : ℝ) : WithTop ℝ) else ⊤,
    tc := fun _ => 0 }

/-- Lexicographic order on `(f_score, transfers_count)` keys used by the
`min(open_set, key=...)` selection. -/
def keyLt (a b : WithTop ℝ × ℕ) : Prop :=
  a.1 < b.1 ∨ (a.1 = b.1 ∧ a.2 < b.2)

/-- `min(open_set, key=lambda n: (f_score[n], transfers_count[n]))`:
the first element attaining the minimal key. -/
noncomputable def selectMin (s : SState) (h : String) (t : List String) : String :=
  t.foldl (fun best n =>
    if keyLt (s.f n, s.tc n) (s.f best, s.tc best) then n else best) h

/-- Relaxation of one outgoing edge of `current` (lines 453-463), including
the search-only `+0.5` adjustment for transfer edges under
`prefer_fewer_transfers`. -/
noncomputable def relaxOne (options : RouteOptions) (goal : Station)
    (current : String) (s : SState)
    (nb : String × ℝ × String × Option String) : SState :=
  let v := nb.1
  let step_cost := nb.2.1
  let etype := nb.2.2.1
  let tentative0 := s.g current + (step_cost : WithTop ℝ)
  let tentative := if options.prefer_fewer_transfers = true ∧ etype = "transfer"
                   then tentative0 + ((0.5 : ℝ) : WithTop ℝ) else tentative0
  if tentative < s.g v then
    { openl := if v ∈ s.openl then s.openl else s.openl ++ [v],
      cameFrom := fun x => if x = v then some current else s.cameFrom x,
      g := fun x => if x = v then tentative else s.g x,
      f := fun x => if x = v then tentative + ((dist2 (stationOf v) goal : ℝ) : WithTop ℝ)
                    else s.f x,
      tc := fun x => if x = v then s.tc current + (if etype = "transfer" then 1 else 0)
                     else s.tc x }
  else s

/-- The A* `while open_set:` loop (lines 447-463), with explicit fuel.
Returns the final state when the loop exits (frontier empty, or the
selected node is the destination), `none` when the fuel runs out. -/
noncomputable def loopA (options : RouteOptions) (goal : Station)
    (destination_id : String) : ℕ → SState → Option SState
  | 0, _ => none
  | Nat.succ fuel, s =>
    match s.openl with
    | [] => some s
    | h :: t =>
      let current := selectMin s h t
      if current = destination_id then some s
      else
        let s1 : SState := { s with openl := (h :: t).erase current }
        let s2 := (neighborsOf options current).foldl (relaxOne options goal current) s1
        loopA options goal destination_id fuel s2

/-- Path reconstruction (lines 469-475), with explicit fuel.  The
accumulator holds the ids in final (reversed-at-the-end) order; its head is
the Python `path_ids[-1]`. -/
def rebuild (cameFrom : String → Option String) (origin_id : String) :
    ℕ → List String → Option (List String)
  | 0, _ => none
  | Nat.succ fuel, acc =>
    match acc with
    | [] => some []
    | last :: _ =>
      if last = origin_id then some acc
      else
        match cameFrom last with
        | none => some acc
        | some prev => rebuild cameFrom origin_id fuel (prev :: acc)

/-- The `a_star` endpoint function (lines 410-514).  The outer `Option` is
`none` when the fuel bound is hit (the Python loop has no such bound);
`Except` carries the two raised errors. -/
noncomputable def a_star (fuel : ℕ) (origin_id destination_id : String)
    (options : RouteOptions) : Option (Except Err RouteResult) :=
  match findStation origin_id, findStation destination_id with
  | some start, some goal =>
    match loopA options goal destination_id fuel
        (initState origin_id start goal) with
    | none => none
    | some s =>
      if s.cameFrom destination_id = none ∧ destination_id ≠ origin_id then
        some (Except.error Err.noRouteFound)
      else
        match rebuild s.cameFrom origin_id fuel [destination_id] with
        | none => none
        | some path_ids => some (Except.ok (assembleResult options path_ids))
  | _, _ => some (Except.error Err.stationNotFound)

/-- The `/api/route` handler `compute_route` (lines 527-536): degenerate
origin = destination case first, then `a_star`. -/
noncomputable def compute_route (fuel : ℕ) (req : RouteRequest) :
    Option (Except Err RouteResult) :=
  if req.origin_id = req.destination_id then
    match findStation req.origin_id with
    | none => some (Except.error Err.stationNotFound)
    | some s => some (Except.ok
        { path := [s.id], segments := [], total_distance := 0, total_cost := 0,
          transfers := 0, lines_used := [s.line] })
  else a_star fuel req.origin_id req.destination_id req.options

/-- A station's schematic coordinates as a point of the Euclidean plane. -/
noncomputable def asPoint (s : Station) : EuclideanSpace ℝ (Fin 2) := ![s.x, s.y]

/-- Adjacency in the graph: some edge of either kind joins `a` to `b`. -/
def IsEdge (a b : String) : Prop :=
  ((a, b, "line") : Edge) ∈ EDGES ∨ ((a, b, "transfer") : Edge) ∈ EDGES

instance (a b : String) : Decidable (IsEdge a b) := by
  unfold IsEdge
  infer_instance

/-- Cost of a fixed path under the cost model, per-edge kinds re-derived by
edge-set membership exactly as the assembler does. -/
noncomputable def pathCost (options : RouteOptions) (p : List String) : ℝ :=
  ((pathPairs p).map (fun ab => segCost options ab.1 ab.2 (kindOf ab.1 ab.2))).sum

/-- A path from `o` to `d` in the graph: nonempty station-id list headed by
`o`, ending at `d`, with every consecutive pair an edge. -/
def PathFromTo (p : List String) (o d : String) : Prop :=
  p.head? = some o ∧ p.getLast? = some d ∧ List.Chain' IsEdge p

/-- `v` reaches `origin` by iterating the predecessor map. -/
inductive CFReach (cf : String → Option String) (origin : String) : String → Prop
  | base : CFReach cf origin origin
  | step {v u : String} : cf v = some u → CFReach cf origin u → CFReach cf origin v

/-- `y` occurs on the predecessor chain starting at `x`. -/
inductive InChain (cf : String → Option String) : String → String → Prop
  | refl (x : String) : InChain cf x x
  | tail {x w y : String} : cf x = some w → InChain cf w y → InChain cf x y

/-- Relaxation-stable part of the A* loop invariant (for non-negative search
weights): the origin keeps g-score 0, g-scores are non-negative, the
predecessor map is defined exactly on the finite-g nodes other than the
origin, predecessor links are graph edges along which g does not decrease,
predecessor chains run back to the origin, and the open list holds only
finite-g nodes. -/
structure SInvCore (origin : String) (s : SState) : Prop where
  gOrigin : s.g origin = 0
  gNonneg : ∀ v, (0 : WithTop ℝ) ≤ s.g v
  cfDom : ∀ v, (s.cameFrom v).isSome ↔ (s.g v < ⊤ ∧ v ≠ origin)
  cfEdge : ∀ v u, s.cameFrom v = some u → IsEdge u v
  cfMono : ∀ v u, s.cameFrom v = some u → s.g u ≤ s.g v
  cfReach : ∀ v, s.g v < ⊤ → CFReach s.cameFrom origin v
  openFin : ∀ v ∈ s.openl, s.g v < ⊤

/-- Full loop invariant: additionally, every finite-g node is either still
in the open list or has had all its outgoing edges relaxed. -/
structure SInv (origin : String) (s : SState) extends SInvCore origin s : Prop where
  closedRelax : ∀ u, s.g u < ⊤ → u ∈ s.openl ∨ ∀ v, IsEdge u v → s.g v < ⊤

/-- Optimality invariant of the search for `prefer_fewer_transfers = false`:
on top of `SInv`, f-scores are g-scores plus the heuristic, predecessor
links are quantitatively relaxed, finite closed nodes have all successors
quantitatively relaxed, and every origin-to-`z` path either already bounds
`g z` or crosses the open frontier at a node whose g-score is bounded by
the cost of the path prefix reaching it. -/
structure OInv (options : RouteOptions) (origin : String) (goal : Station)
    (s : SState) extends SInv origin s : Prop where
  fg : ∀ v, s.f v = s.g v + ((dist2 (stationOf v) goal : ℝ) : WithTop ℝ)
  cfMonoQ : ∀ v u, s.cameFrom v = some u →
    s.g u + ((segCost options u v (kindOf u v) : ℝ) : WithTop ℝ) ≤ s.g v
  relaxedQuant : ∀ u, s.g u < ⊤ → u ∈ s.openl ∨ ∀ v, IsEdge u v →
    s.g v ≤ s.g u + ((segCost options u v (kindOf u v) : ℝ) : WithTop ℝ)
  crossing : ∀ z p, PathFromTo p origin z →
    s.g z ≤ ((pathCost options p : ℝ) : WithTop ℝ)
    ∨ ∃ x q r, p = q ++ r ∧ PathFromTo q origin x ∧ PathFromTo (x :: r) x z
        ∧ x ∈ s.openl ∧ s.g x ≤ ((pathCost options q : ℝ) : WithTop ℝ)

set_option maxRecDepth 8000

/-! ### Basic facts about the cost model -/

lemma dist2_nonneg (a b : Station) : 0 ≤ dist2 a b := Real.sqrt_nonneg _

lemma dist2_self (a : Station) : dist2 a a = 0 := by
  simp [dist2]

/-- Rounding to three decimals moves a value by at most `1/2000`. -/
lemma round3_close (x : ℝ) : |round3 x - x| ≤ 1 / 2000 := by
  unfold round3
  have h := abs_sub_round (α := ℝ) (x * 1000)
  rw [abs_sub_comm] at h
  have : (round (x * 1000) : ℝ) / 1000 - x = ((round (x * 1000) : ℝ) - x * 1000) / 1000 := by
    ring
  rw [this, abs_div]
  rw [abs_of_pos (by norm_num : (0:ℝ) < 1000)]
  calc |(round (x * 1000) : ℝ) - x * 1000| / 1000 ≤ (1 / 2) / 1000 := by
        apply div_le_div_of_nonneg_right h (by norm_num)
    _ = 1 / 2000 := by norm_num

lemma round3_nonneg {x : ℝ} (hx : 0 ≤ x) : 0 ≤ round3 x := by
  unfold round3
  have : (0:ℤ) ≤ round (x * 1000) := by
    rw [round_eq]
    exact Int.floor_nonneg.mpr (by positivity)
  positivity

/-- Line-kind segment costs do not depend on the mobility option. -/
lemma segCost_mobility_irrel (options : RouteOptions) (m m' : String)
    (a b : String) (etype : String) (h : etype ≠ "transfer") :
    segCost { options with mobility := m } a b etype
      = segCost { options with mobility := m' } a b etype := by
  unfold segCost
  simp [h]

/-- Transfer-kind segment cost under each mobility value. -/
lemma segCost_transfer (options : RouteOptions) (a b : String) :
    segCost { options with mobility := "reduced" } a b "transfer"
        = (dist2 (stationOf a) (stationOf b) + options.transfer_penalty) * 1.5
    ∧ segCost { options with mobility := "normal" } a b "transfer"
        = dist2 (stationOf a) (stationOf b) + options.transfer_penalty := by
  have hne : ("normal" : String) ≠ "reduced" := by decide
  unfold segCost
  constructor
  · simp
  · simp [hne]

/-- Segment costs of the assembled result, as a function-composed map. -/
lemma assemble_costs (options : RouteOptions) (p : List String) :
    (assembleResult options p).segments.map (fun s => s.cost)
      = (pathPairs p).map (fun ab => segCost options ab.1 ab.2 (kindOf ab.1 ab.2)) := by
  unfold assembleResult
  rw [List.map_map]
  rfl

/-- Total cost of the assembled result is the rounded sum of segment costs. -/
lemma assemble_total_cost (options : RouteOptions) (p : List String) :
    (assembleResult options p).total_cost
      = round3 (((assembleResult options p).segments.map (fun s => s.cost)).sum) := rfl

/-- Claim C2 (as stated) is false: for the fixed one-transfer path
Tacubaya line 1 → Tacubaya line 7 with default options, the reduced-mobility
total exceeds the normal total by `0.5 × (0 + 5) = 2.5`, not by
`0.5 × 0 = 0` (the transfer edge has Euclidean length 0). -/
theorem claim_C2_counterexample :
    ¬ ((assembleResult { mobility := "reduced" } ["l1_tacubaya", "l7_tacubaya"]).total_cost
        = (assembleResult { mobility := "normal" } ["l1_tacubaya", "l7_tacubaya"]).total_cost
          + 0.5 * dist2 (stationOf "l1_tacubaya") (stationOf "l7_tacubaya")) := by
  have h1 : stationOf "l1_tacubaya" =
      { id := "l1_tacubaya", name := "Tacubaya", line := "1", color := "#E03C8A",
        x := 12, y := 44, order := 2, accessible := true } := rfl
  have h7 : stationOf "l7_tacubaya" =
      { id := "l7_tacubaya", name := "Tacubaya", line := "7", color := "#F5A300",
        x := 12, y := 44, order := 8, accessible := true } := rfl
  have hd : dist2 (stationOf "l1_tacubaya") (stationOf "l7_tacubaya") = 0 := by
    rw [h1, h7]; simp [dist2]
  have hk : kindOf "l1_tacubaya" "l7_tacubaya" = "transfer" := by decide
  have hp : pathPairs ["l1_tacubaya", "l7_tacubaya"]
      = [("l1_tacubaya", "l7_tacubaya")] := rfl
  have hcR : (assembleResult { mobility := "reduced" } ["l1_tacubaya", "l7_tacubaya"]).total_cost
      = round3 7.5 := by
    rw [assemble_total_cost, assemble_costs, hp]
    have := (segCost_transfer ({} : RouteOptions) "l1_tacubaya" "l7_tacubaya").1
    simp only [List.map_cons, List.map_nil, List.sum_cons, List.sum_nil, hk]
    rw [show ({ mobility := "reduced" } : RouteOptions)
        = { ({} : RouteOptions) with mobility := "reduced" } from rfl, this, hd]
    norm_num
  have hcN : (assembleResult { mobility := "normal" } ["l1_tacubaya", "l7_tacubaya"]).total_cost
      = round3 5 := by
    rw [assemble_total_cost, assemble_costs, hp]
    have := (segCost_transfer ({} : RouteOptions) "l1_tacubaya" "l7_tacubaya").2
    simp only [List.map_cons, List.map_nil, List.sum_cons, List.sum_nil, hk]
    rw [show ({ mobility := "normal" } : RouteOptions)
        = { ({} : RouteOptions) with mobility := "normal" } from rfl, this, hd]
    norm_num
  have hr1 : round3 7.5 = 7.5 := by
    unfold round3
    rw [show (7.5 : ℝ) * 1000 = ((7500 : ℤ) : ℝ) by norm_num, round_intCast]
    norm_num
  have hr2 : round3 5 = 5 := by
    unfold round3
    rw [show (5 : ℝ) * 1000 = ((5000 : ℤ) : ℝ) by norm_num, round_intCast]
    norm_num
  rw [hcR, hcN, hd, hr1, hr2]
  norm_num

/-- Claim C2 amended: for a fixed path containing exactly one transfer edge,
the reduced-mobility sum of segment costs exceeds the normal-mobility sum by
exactly `0.5 × (transfer edge distance + transfer_penalty)` — half of the
edge's base-plus-penalty cost — and the reported (rounded) totals satisfy
the same identity within `0.001`. -/
theorem claim_C2_amended (options : RouteOptions) (p : List String)
    (l1 l2 : List (String × String)) (a b : String)
    (hsplit : pathPairs p = l1 ++ (a, b) :: l2)
    (htr : kindOf a b = "transfer")
    (hl1 : ∀ xy ∈ l1, kindOf xy.1 xy.2 ≠ "transfer")
    (hl2 : ∀ xy ∈ l2, kindOf xy.1 xy.2 ≠ "transfer") :
    (((assembleResult { options with mobility := "reduced" } p).segments.map
        (fun s => s.cost)).sum
      = ((assembleResult { options with mobility := "normal" } p).segments.map
        (fun s => s.cost)).sum
        + 0.5 * (dist2 (stationOf a) (stationOf b) + options.transfer_penalty))
    ∧ |(assembleResult { options with mobility := "reduced" } p).total_cost
        - (assembleResult { options with mobility := "normal" } p).total_cost
        - 0.5 * (dist2 (stationOf a) (stationOf b) + options.transfer_penalty)| ≤ 0.001 := by
  have hsum :
      ((assembleResult { options with mobility := "reduced" } p).segments.map
        (fun s => s.cost)).sum
      = ((assembleResult { options with mobility := "normal" } p).segments.map
        (fun s => s.cost)).sum
        + 0.5 * (dist2 (stationOf a) (stationOf b) + options.transfer_penalty) := by
    rw [assemble_costs, assemble_costs, hsplit]
    rw [List.map_append, List.map_append, List.sum_append, List.sum_append,
        List.map_cons, List.map_cons, List.sum_cons, List.sum_cons]
    have e1 : l1.map (fun ab => segCost { options with mobility := "reduced" }
          ab.1 ab.2 (kindOf ab.1 ab.2))
        = l1.map (fun ab => segCost { options with mobility := "normal" }
          ab.1 ab.2 (kindOf ab.1 ab.2)) := by
      apply List.map_congr_left
      intro xy hxy
      exact segCost_mobility_irrel options _ _ _ _ _ (hl1 xy hxy)
    have e2 : l2.map (fun ab => segCost { options with mobility := "reduced" }
          ab.1 ab.2 (kindOf ab.1 ab.2))
        = l2.map (fun ab => segCost { options with mobility := "normal" }
          ab.1 ab.2 (kindOf ab.1 ab.2)) := by
      apply List.map_congr_left
      intro xy hxy
      exact segCost_mobility_irrel options _ _ _ _ _ (hl2 xy hxy)
    rw [e1, e2, htr, (segCost_transfer options a b).1, (segCost_transfer options a b).2]
    ring
  refine ⟨hsum, ?_⟩
  rw [assemble_total_cost, assemble_total_cost]
  set xR := ((assembleResult { options with mobility := "reduced" } p).segments.map
      (fun s => s.cost)).sum with hxR
  set xN := ((assembleResult { options with mobility := "normal" } p).segments.map
      (fun s => s.cost)).sum with hxN
  have h1 := round3_close xR
  have h2 := round3_close xN
  have hdelta : xR - xN = 0.5 * (dist2 (stationOf a) (stationOf b) + options.transfer_penalty) := by
    rw [hsum]; ring
  calc |round3 xR - round3 xN
        - 0.5 * (dist2 (stationOf a) (stationOf b) + options.transfer_penalty)|
      = |(round3 xR - xR) - (round3 xN - xN) + ((xR - xN)
          - 0.5 * (dist2 (stationOf a) (stationOf b) + options.transfer_penalty))| := by
        ring_nf
    _ ≤ |round3 xR - xR| + |round3 xN - xN| := by
        rw [hdelta]
        simp only [sub_self, add_zero]
        exact abs_sub _ _
    _ ≤ 1 / 2000 + 1 / 2000 := add_le_add h1 h2
    _ ≤ 0.001 := by norm_num

/-- Witness for the amended claim C2 at the concrete one-transfer path. -/
theorem claim_C2_witness :
    (((assembleResult { ({} : RouteOptions) with mobility := "reduced" }
        ["l1_tacubaya", "l7_tacubaya"]).segments.map (fun s => s.cost)).sum
      = ((assembleResult { ({} : RouteOptions) with mobility := "normal" }
        ["l1_tacubaya", "l7_tacubaya"]).segments.map (fun s => s.cost)).sum
        + 0.5 * (dist2 (stationOf "l1_tacubaya") (stationOf "l7_tacubaya")
            + ({} : RouteOptions).transfer_penalty))
    ∧ |(assembleResult { ({} : RouteOptions) with mobility := "reduced" }
        ["l1_tacubaya", "l7_tacubaya"]).total_cost
        - (assembleResult { ({} : RouteOptions) with mobility := "normal" }
        ["l1_tacubaya", "l7_tacubaya"]).total_cost
        - 0.5 * (dist2 (stationOf "l1_tacubaya") (stationOf "l7_tacubaya")
            + ({} : RouteOptions).transfer_penalty)| ≤ 0.001 :=
  claim_C2_amended ({} : RouteOptions) ["l1_tacubaya", "l7_tacubaya"] [] []
    "l1_tacubaya" "l7_tacubaya" rfl (by decide)
    (by intro xy hxy; cases hxy) (by intro xy hxy; cases hxy)

/-! ### The assembler recomputes exactly the cost model (claim C3) -/

/-- On the edge kinds actually produced by the membership test, the
assembler's inline cost recomputation coincides with the neighbor-map cost
function: the search-only `+0.5` adjustment appears in neither. -/
lemma segCost_eq_edgeCost (options : RouteOptions) (a b : String) :
    segCost options a b (kindOf a b)
      = edgeCost options (stationOf a) (stationOf b) (kindOf a b) := by
  have hlt : ("line" : String) ≠ "transfer" := by decide
  unfold kindOf
  by_cases hmem : ((a, b, "transfer") : Edge) ∈ EDGES
  · simp only [if_pos hmem]
    unfold segCost edgeCost
    simp
  · simp only [if_neg hmem]
    unfold segCost edgeCost
    simp [hlt]

/-- Any `ok` result of `a_star` is an assembled itinerary for some path. -/
lemma a_star_ok_shape (fuel : ℕ) (o d : String) (options : RouteOptions)
    (r : RouteResult) (h : a_star fuel o d options = some (Except.ok r)) :
    ∃ p, r = assembleResult options p := by
  unfold a_star at h
  split at h
  · split at h
    · exact absurd h (by simp)
    · split at h
      · exact absurd h (by simp)
      · split at h
        · exact absurd h (by simp)
        · exact ⟨_, (Except.ok.inj (Option.some.inj h)).symm⟩
  · exact absurd h (by simp)

/-- Claim C3: in any returned route, each segment's cost is the plain
cost-model cost of its edge (re-derived by edge-set membership), with no
trace of the search-only `+0.5` prefer-fewer-transfers adjustment, and the
reported total is the rounded sum of exactly those segment costs. -/
theorem claim_C3 (fuel : ℕ) (o d : String) (options : RouteOptions)
    (r : RouteResult) (hp : options.prefer_fewer_transfers = true)
    (h : a_star fuel o d options = some (Except.ok r)) :
    (∀ s ∈ r.segments,
        s.cost = edgeCost options (stationOf s.from_id) (stationOf s.to_id)
          (kindOf s.from_id s.to_id))
    ∧ r.total_cost = round3 ((r.segments.map (fun s => s.cost)).sum) := by
  obtain ⟨p, rfl⟩ := a_star_ok_shape fuel o d options r h
  constructor
  · intro s hs
    unfold assembleResult at hs
    simp only [List.mem_map] at hs
    obtain ⟨ab, _, rfl⟩ := hs
    show segCost options ab.1 ab.2 (kindOf ab.1 ab.2)
        = edgeCost options (stationOf ab.1) (stationOf ab.2) (kindOf ab.1 ab.2)
    exact segCost_eq_edgeCost options ab.1 ab.2
  · exact assemble_total_cost options p

/-- Witness for C3 at a concrete degenerate `a_star` call (origin =
destination, `prefer_fewer_transfers` on). -/
theorem claim_C3_witness :
    (∀ s ∈ (assembleResult { prefer_fewer_transfers := true } ["l1_balderas"]).segments,
        s.cost = edgeCost { prefer_fewer_transfers := true }
          (stationOf s.from_id) (stationOf s.to_id) (kindOf s.from_id s.to_id))
    ∧ (assembleResult { prefer_fewer_transfers := true } ["l1_balderas"]).total_cost
        = round3 (((assembleResult { prefer_fewer_transfers := true }
            ["l1_balderas"]).segments.map (fun s => s.cost)).sum) :=
  claim_C3 1 "l1_balderas" "l1_balderas" { prefer_fewer_transfers := true }
    (assembleResult { prefer_fewer_transfers := true } ["l1_balderas"]) rfl rfl

/-! ### Rounding of reported values (claim C5) -/

lemma sqrt_eight_irrational : Irrational (Real.sqrt 8) := by
  have h8 : Real.sqrt 8 = 2 * Real.sqrt 2 := by
    rw [show (8 : ℝ) = 2 ^ 2 * 2 by norm_num, Real.sqrt_mul (by positivity),
      Real.sqrt_sq (by norm_num)]
  rw [h8]
  have h := irrational_sqrt_two.rat_mul (by norm_num : (2 : ℚ) ≠ 0)
  simpa using h

/-- Claim C5 (as stated) is false: the response segments carry raw values.
For the Balderas → Juárez transfer, the reported segment distance is the
irrational `√8`, which is not a multiple of `0.001` (not rounded to three
decimal places). -/
theorem claim_C5_counterexample :
    ¬ (∀ s ∈ (assembleResult {} ["l1_balderas", "l3_juarez"]).segments,
        (∃ k : ℤ, s.distance = (k : ℝ) / 1000) ∧ (∃ k : ℤ, s.cost = (k : ℝ) / 1000)) := by
  intro hall
  have hsegs : (assembleResult {} ["l1_balderas", "l3_juarez"]).segments
      = [mkSegment {} "l1_balderas" "l3_juarez"] := rfl
  have hmem : mkSegment {} "l1_balderas" "l3_juarez"
      ∈ (assembleResult {} ["l1_balderas", "l3_juarez"]).segments := by
    rw [hsegs]; exact List.mem_singleton.mpr rfl
  obtain ⟨⟨k, hk⟩, -⟩ := hall _ hmem
  have hb : stationOf "l1_balderas" =
      { id := "l1_balderas", name := "Balderas", line := "1", color := "#E03C8A",
        x := 58, y := 44, order := 8, accessible := true } := rfl
  have hj : stationOf "l3_juarez" =
      { id := "l3_juarez", name := "Juárez", line := "3", color := "#6EBD45",
        x := 60, y := 42, order := 7, accessible := true } := rfl
  have hd : (mkSegment {} "l1_balderas" "l3_juarez").distance = Real.sqrt 8 := by
    show dist2 (stationOf "l1_balderas") (stationOf "l3_juarez") = Real.sqrt 8
    rw [hb, hj]
    unfold dist2
    norm_num
  rw [hd] at hk
  exact sqrt_eight_irrational ⟨(k : ℚ) / 1000, by push_cast; linarith⟩

/-- Claim C5 amended: only `total_distance` and `total_cost` are rounded to
three decimal places (they are the `round3` of the segment sums, hence
integer multiples of `0.001`); each segment's `distance` and `cost` are
reported unrounded, as the raw Euclidean distance and raw cost-model cost. -/
theorem claim_C5_amended (options : RouteOptions) (p : List String) :
    (assembleResult options p).total_distance
        = round3 (((assembleResult options p).segments.map (fun s => s.distance)).sum)
    ∧ (assembleResult options p).total_cost
        = round3 (((assembleResult options p).segments.map (fun s => s.cost)).sum)
    ∧ (∃ k : ℤ, (assembleResult options p).total_distance = (k : ℝ) / 1000)
    ∧ (∃ k : ℤ, (assembleResult options p).total_cost = (k : ℝ) / 1000)
    ∧ ∀ s ∈ (assembleResult options p).segments,
        s.distance = dist2 (stationOf s.from_id) (stationOf s.to_id)
        ∧ s.cost = segCost options s.from_id s.to_id (kindOf s.from_id s.to_id) := by
  refine ⟨rfl, assemble_total_cost options p, ?_, ?_, ?_⟩
  · exact ⟨round ((((assembleResult options p).segments.map
      (fun s => s.distance)).sum) * 1000), rfl⟩
  · exact ⟨round ((((assembleResult options p).segments.map
      (fun s => s.cost)).sum) * 1000), rfl⟩
  · intro s hs
    unfold assembleResult at hs
    simp only [List.mem_map] at hs
    obtain ⟨ab, -, rfl⟩ := hs
    exact ⟨rfl, rfl⟩

/-- Witness for the amended claim C5 at the Balderas → Juárez response. -/
theorem claim_C5_witness :
    (∃ k : ℤ, (assembleResult {} ["l1_balderas", "l3_juarez"]).total_cost = (k : ℝ) / 1000)
    ∧ ∀ s ∈ (assembleResult {} ["l1_balderas", "l3_juarez"]).segments,
        s.distance = dist2 (stationOf s.from_id) (stationOf s.to_id)
        ∧ s.cost = segCost {} s.from_id s.to_id (kindOf s.from_id s.to_id) :=
  ⟨(claim_C5_amended {} ["l1_balderas", "l3_juarez"]).2.2.2.1,
   (claim_C5_amended {} ["l1_balderas", "l3_juarez"]).2.2.2.2⟩

/-! ### Unknown station ids (claim C7) -/

/-- Claim C7: whenever either endpoint id is missing from the catalog
(including the degenerate origin = destination request), the core returns
`StationNotFound`.  The conclusion holds for every fuel value, `fuel = 0`
included: the lookup check precedes the search loop, so no search state is
ever consumed. -/
theorem claim_C7 (fuel : ℕ) (req : RouteRequest)
    (h : (findStation req.origin_id).isSome = false
       ∨ (findStation req.destination_id).isSome = false) :
    compute_route fuel req = some (Except.error Err.stationNotFound)
    ∧ compute_route fuel req = compute_route 0 req := by
  have main : ∀ f, compute_route f req = some (Except.error Err.stationNotFound) := by
    intro f
    unfold compute_route
    by_cases heq : req.origin_id = req.destination_id
    · simp only [if_pos heq]
      rcases hfo : findStation req.origin_id with _ | s
      · rfl
      · exfalso
        rcases h with h | h
        · rw [hfo] at h; simp at h
        · rw [← heq, hfo] at h; simp at h
    · simp only [if_neg heq]
      unfold a_star
      rcases hfo : findStation req.origin_id with _ | s
      · rfl
      · rcases hfd : findStation req.destination_id with _ | g
        · rfl
        · exfalso
          rcases h with h | h
          · rw [hfo] at h; simp at h
          · rw [hfd] at h; simp at h
  exact ⟨main fuel, (main fuel).trans (main 0).symm⟩

/-- Witness for C7: an unknown origin id with a known destination. -/
theorem claim_C7_witness :
    compute_route 3 { origin_id := "ghost_station", destination_id := "l1_balderas" }
      = some (Except.error Err.stationNotFound) :=
  (claim_C7 3 { origin_id := "ghost_station", destination_id := "l1_balderas" }
    (Or.inl (by decide))).1

/-! ### Non-negativity of costs (claim C9) -/

lemma edgeCost_nonneg (options : RouteOptions) (h : 0 ≤ options.transfer_penalty)
    (su sv : Station) (etype : String) :
    0 ≤ edgeCost options su sv etype := by
  have hd := dist2_nonneg su sv
  unfold edgeCost
  dsimp only
  split_ifs <;> nlinarith

lemma segCost_nonneg (options : RouteOptions) (h : 0 ≤ options.transfer_penalty)
    (a b : String) (etype : String) :
    0 ≤ segCost options a b etype := by
  have hd := dist2_nonneg (stationOf a) (stationOf b)
  unfold segCost
  dsimp only
  split_ifs <;> nlinarith

/-- Claim C9: with a non-negative transfer penalty, every edge cost is
non-negative, and so is every reported segment cost and both reported
totals of any assembled itinerary. -/
theorem claim_C9 (options : RouteOptions) (h : 0 ≤ options.transfer_penalty) :
    (∀ e ∈ EDGES, 0 ≤ edgeCost options (stationOf e.1) (stationOf e.2.1) e.2.2)
    ∧ ∀ p : List String,
        (∀ s ∈ (assembleResult options p).segments, 0 ≤ s.cost)
        ∧ 0 ≤ (assembleResult options p).total_distance
        ∧ 0 ≤ (assembleResult options p).total_cost := by
  refine ⟨fun e _ => edgeCost_nonneg options h _ _ _, fun p => ⟨?_, ?_, ?_⟩⟩
  · intro s hs
    unfold assembleResult at hs
    simp only [List.mem_map] at hs
    obtain ⟨ab, -, rfl⟩ := hs
    exact segCost_nonneg options h ab.1 ab.2 _
  · apply round3_nonneg
    apply List.sum_nonneg
    intro x hx
    simp only [List.mem_map] at hx
    obtain ⟨s, hs, rfl⟩ := hx
    obtain ⟨ab, -, rfl⟩ := hs
    exact dist2_nonneg _ _
  · apply round3_nonneg
    apply List.sum_nonneg
    intro x hx
    simp only [List.mem_map] at hx
    obtain ⟨s, hs, rfl⟩ := hx
    obtain ⟨ab, -, rfl⟩ := hs
    exact segCost_nonneg options h ab.1 ab.2 _

/-- Witness for C9 with the default options (penalty 5). -/
theorem claim_C9_witness :
    (∀ e ∈ EDGES, 0 ≤ edgeCost {} (stationOf e.1) (stationOf e.2.1) e.2.2)
    ∧ ∀ p : List String,
        (∀ s ∈ (assembleResult {} p).segments, 0 ≤ s.cost)
        ∧ 0 ≤ (assembleResult {} p).total_distance
        ∧ 0 ≤ (assembleResult {} p).total_cost :=
  claim_C9 {} (by norm_num)

/-! ### Admissibility of the heuristic (claim C4) -/

lemma dist2_eq_dist (a b : Station) : dist2 a b = dist (asPoint a) (asPoint b) := by
  rw [EuclideanSpace.dist_eq, Fin.sum_univ_two]
  unfold dist2 asPoint
  simp [Real.dist_eq, sq_abs]

/-- Triangle inequality for the schematic Euclidean distance. -/
lemma dist2_triangle (a b c : Station) : dist2 a c ≤ dist2 a b + dist2 b c := by
  rw [dist2_eq_dist, dist2_eq_dist, dist2_eq_dist]
  exact dist_triangle _ _ _

/-- Under a non-negative penalty, every per-segment cost dominates the
Euclidean distance of its endpoints (multipliers are ≥ 1, penalties ≥ 0). -/
lemma segCost_ge_dist (options : RouteOptions) (h : 0 ≤ options.transfer_penalty)
    (a b : String) (etype : String) :
    dist2 (stationOf a) (stationOf b) ≤ segCost options a b etype := by
  have hd := dist2_nonneg (stationOf a) (stationOf b)
  unfold segCost
  dsimp only
  split_ifs <;> nlinarith

lemma pathPairs_cons_cons (a b : String) (rest : List String) :
    pathPairs (a :: b :: rest) = (a, b) :: pathPairs (b :: rest) := rfl

/-- Heuristic admissibility along a fixed path: the straight-line distance
from the path's first station to its last never exceeds the path's cost. -/
lemma dist_le_pathCost (options : RouteOptions) (h : 0 ≤ options.transfer_penalty) :
    ∀ (p : List String) (n g : String), p.head? = some n → p.getLast? = some g →
      List.Chain' IsEdge p → dist2 (stationOf n) (stationOf g) ≤ pathCost options p
  | [], n, g, hn, _, _ => by simp at hn
  | [a], n, g, hn, hg, _ => by
      simp only [List.head?_cons, Option.some.injEq] at hn
      simp only [List.getLast?_singleton, Option.some.injEq] at hg
      subst hn; subst hg
      rw [dist2_self]
      unfold pathCost pathPairs
      simp
  | a :: b :: rest, n, g, hn, hg, hc => by
      simp only [List.head?_cons, Option.some.injEq] at hn
      obtain rfl : a = n := hn
      have hg' : (b :: rest).getLast? = some g := by
        rw [List.getLast?_cons_cons] at hg
        exact hg
      have hc' : List.Chain' IsEdge (b :: rest) := hc.tail
      have ih := dist_le_pathCost options h (b :: rest) b g rfl hg' hc'
      have hedge : dist2 (stationOf a) (stationOf b)
          ≤ segCost options a b (kindOf a b) :=
        segCost_ge_dist options h a b _
      have htr := dist2_triangle (stationOf a) (stationOf b) (stationOf g)
      have hsum : pathCost options (a :: b :: rest)
          = segCost options a b (kindOf a b) + pathCost options (b :: rest) := by
        unfold pathCost
        rw [pathPairs_cons_cons, List.map_cons, List.sum_cons]
      rw [hsum]
      linarith

/-- Claim C4: with a non-negative transfer penalty, every edge's cost-model
cost is at least the Euclidean distance of its endpoints, and therefore the
heuristic `h(n) = dist(n, goal)` never exceeds the cost of any path from
`n` to the goal along graph edges. -/
theorem claim_C4 (options : RouteOptions) (h : 0 ≤ options.transfer_penalty) :
    (∀ e ∈ EDGES, dist2 (stationOf e.1) (stationOf e.2.1)
        ≤ edgeCost options (stationOf e.1) (stationOf e.2.1) e.2.2)
    ∧ ∀ (p : List String) (n g : String), p.head? = some n → p.getLast? = some g →
        List.Chain' IsEdge p → dist2 (stationOf n) (stationOf g) ≤ pathCost options p := by
  constructor
  · intro e _
    have hd := dist2_nonneg (stationOf e.1) (stationOf e.2.1)
    unfold edgeCost
    dsimp only
    split_ifs <;> nlinarith
  · exact dist_le_pathCost options h

/-- Witness for C4: default options, and a two-station path across the
Balderas–Juárez transfer edge. -/
theorem claim_C4_witness :
    dist2 (stationOf "l1_balderas") (stationOf "l3_juarez")
      ≤ pathCost {} ["l1_balderas", "l3_juarez"] :=
  (claim_C4 {} (by norm_num)).2 ["l1_balderas", "l3_juarez"]
    "l1_balderas" "l3_juarez" rfl rfl
    (List.chain'_cons.mpr ⟨Or.inr (by decide), List.chain'_singleton _⟩)

/-! ### Absence of option validation (claim C10) -/

lemma edgeCost_mobility (options : RouteOptions) (hm : options.mobility ≠ "reduced")
    (su sv : Station) (etype : String) :
    edgeCost { options with mobility := "normal" } su sv etype
      = edgeCost options su sv etype := by
  have h2 : ("normal" : String) ≠ "reduced" := by decide
  unfold edgeCost
  simp [hm, h2]

lemma segCost_mobility (options : RouteOptions) (hm : options.mobility ≠ "reduced")
    (a b : String) (etype : String) :
    segCost { options with mobility := "normal" } a b etype
      = segCost options a b etype := by
  have h2 : ("normal" : String) ≠ "reduced" := by decide
  unfold segCost
  simp [hm, h2]

lemma neighborsOf_mobility (options : RouteOptions) (hm : options.mobility ≠ "reduced")
    (u : String) :
    neighborsOf { options with mobility := "normal" } u = neighborsOf options u := by
  unfold neighborsOf
  congr 1
  funext e
  rw [edgeCost_mobility options hm]

lemma relaxOne_update_mobility (options : RouteOptions) (m : String) :
    relaxOne { options with mobility := m } = relaxOne options := rfl

lemma mkSegment_mobility (options : RouteOptions) (hm : options.mobility ≠ "reduced")
    (a b : String) :
    mkSegment { options with mobility := "normal" } a b = mkSegment options a b := by
  unfold mkSegment
  dsimp only
  rw [segCost_mobility options hm]

lemma assembleResult_mobility (options : RouteOptions)
    (hm : options.mobility ≠ "reduced") (p : List String) :
    assembleResult { options with mobility := "normal" } p
      = assembleResult options p := by
  unfold assembleResult
  have hfun : (fun ab : String × String =>
        mkSegment { options with mobility := "normal" } ab.1 ab.2)
      = fun ab => mkSegment options ab.1 ab.2 :=
    funext fun ab => mkSegment_mobility options hm ab.1 ab.2
  rw [hfun]

lemma loopA_mobility (options : RouteOptions) (hm : options.mobility ≠ "reduced")
    (goal : Station) (dest : String) :
    ∀ (fuel : ℕ) (s : SState),
      loopA { options with mobility := "normal" } goal dest fuel s
        = loopA options goal dest fuel s := by
  intro fuel
  induction fuel with
  | zero => intro s; rfl
  | succ n ih =>
    intro s
    unfold loopA
    cases hso : s.openl with
    | nil => rfl
    | cons hd tl =>
      dsimp only
      by_cases hcd : selectMin s hd tl = dest
      · rw [if_pos hcd, if_pos hcd]
      · rw [if_neg hcd, if_neg hcd]
        rw [neighborsOf_mobility options hm, relaxOne_update_mobility]
        exact ih _

lemma a_star_mobility (fuel : ℕ) (o d : String) (options : RouteOptions)
    (hm : options.mobility ≠ "reduced") :
    a_star fuel o d { options with mobility := "normal" }
      = a_star fuel o d options := by
  unfold a_star
  cases hfo : findStation o with
  | none => rfl
  | some start =>
    cases hfd : findStation d with
    | none => rfl
    | some goal =>
      dsimp only
      rw [loopA_mobility options hm]
      cases loopA options goal d fuel (initState o start goal) with
      | none => rfl
      | some s =>
        dsimp only
        by_cases hc : s.cameFrom d = none ∧ d ≠ o
        · rw [if_pos hc, if_pos hc]
        · rw [if_neg hc, if_neg hc]
          cases rebuild s.cameFrom o fuel [d] with
          | none => rfl
          | some p =>
            dsimp only
            rw [assembleResult_mobility options hm]

lemma edgeCost_time (options : RouteOptions) (ht : options.time_of_day ≠ "peak")
    (su sv : Station) (etype : String) :
    edgeCost { options with time_of_day := "offpeak" } su sv etype
      = edgeCost options su sv etype := by
  have h2 : ("offpeak" : String) ≠ "peak" := by decide
  unfold edgeCost
  simp [ht, h2]

lemma segCost_time (options : RouteOptions) (ht : options.time_of_day ≠ "peak")
    (a b : String) (etype : String) :
    segCost { options with time_of_day := "offpeak" } a b etype
      = segCost options a b etype := by
  have h2 : ("offpeak" : String) ≠ "peak" := by decide
  unfold segCost
  simp [ht, h2]

lemma neighborsOf_time (options : RouteOptions) (ht : options.time_of_day ≠ "peak")
    (u : String) :
    neighborsOf { options with time_of_day := "offpeak" } u = neighborsOf options u := by
  unfold neighborsOf
  congr 1
  funext e
  rw [edgeCost_time options ht]

lemma relaxOne_update_time (options : RouteOptions) (t : String) :
    relaxOne { options with time_of_day := t } = relaxOne options := rfl

lemma mkSegment_time (options : RouteOptions) (ht : options.time_of_day ≠ "peak")
    (a b : String) :
    mkSegment { options with time_of_day := "offpeak" } a b = mkSegment options a b := by
  unfold mkSegment
  dsimp only
  rw [segCost_time options ht]

lemma assembleResult_time (options : RouteOptions)
    (ht : options.time_of_day ≠ "peak") (p : List String) :
    assembleResult { options with time_of_day := "offpeak" } p
      = assembleResult options p := by
  unfold assembleResult
  have hfun : (fun ab : String × String =>
        mkSegment { options with time_of_day := "offpeak" } ab.1 ab.2)
      = fun ab => mkSegment options ab.1 ab.2 :=
    funext fun ab => mkSegment_time options ht ab.1 ab.2
  rw [hfun]

lemma loopA_time (options : RouteOptions) (ht : options.time_of_day ≠ "peak")
    (goal : Station) (dest : String) :
    ∀ (fuel : ℕ) (s : SState),
      loopA { options with time_of_day := "offpeak" } goal dest fuel s
        = loopA options goal dest fuel s := by
  intro fuel
  induction fuel with
  | zero => intro s; rfl
  | succ n ih =>
    intro s
    unfold loopA
    cases hso : s.openl with
    | nil => rfl
    | cons hd tl =>
      dsimp only
      by_cases hcd : selectMin s hd tl = dest
      · rw [if_pos hcd, if_pos hcd]
      · rw [if_neg hcd, if_neg hcd]
        rw [neighborsOf_time options ht, relaxOne_update_time]
        exact ih _

lemma a_star_time (fuel : ℕ) (o d : String) (options : RouteOptions)
    (ht : options.time_of_day ≠ "peak") :
    a_star fuel o d { options with time_of_day := "offpeak" }
      = a_star fuel o d options := by
  unfold a_star
  cases hfo : findStation o with
  | none => rfl
  | some start =>
    cases hfd : findStation d with
    | none => rfl
    | some goal =>
      dsimp only
      rw [loopA_time options ht]
      cases loopA options goal d fuel (initState o start goal) with
      | none => rfl
      | some s =>
        dsimp only
        by_cases hc : s.cameFrom d = none ∧ d ≠ o
        · rw [if_pos hc, if_pos hc]
        · rw [if_neg hc, if_neg hc]
          cases rebuild s.cameFrom o fuel [d] with
          | none => rfl
          | some p =>
            dsimp only
            rw [assembleResult_time options ht]

/-- Claim C10: `RouteOptions` values are never validated.  Any mobility
string other than `"reduced"` yields exactly the behaviour of
`mobility = "normal"`; any time-of-day string other than `"peak"` yields
exactly the behaviour of `"offpeak"`; and a negative `transfer_penalty` is
accepted (a degenerate request with penalty `-1` succeeds, it is not
rejected). -/
theorem claim_C10 :
    (∀ (fuel : ℕ) (req : RouteRequest), req.options.mobility ≠ "reduced" →
        compute_route fuel req
          = compute_route fuel
              { req with options := { req.options with mobility := "normal" } })
    ∧ (∀ (fuel : ℕ) (req : RouteRequest), req.options.time_of_day ≠ "peak" →
        compute_route fuel req
          = compute_route fuel
              { req with options := { req.options with time_of_day := "offpeak" } })
    ∧ (({ transfer_penalty := -1 } : RouteOptions).transfer_penalty < 0
        ∧ compute_route 0
            { origin_id := "l1_balderas", destination_id := "l1_balderas",
              options := { transfer_penalty := -1 } }
          = some (Except.ok
              { path := ["l1_balderas"], segments := [], total_distance := 0,
                total_cost := 0, transfers := 0, lines_used := ["1"] })) := by
  refine ⟨?_, ?_, by norm_num, rfl⟩
  · intro fuel req hm
    unfold compute_route
    by_cases heq : req.origin_id = req.destination_id
    · simp only [if_pos heq]
    · simp only [if_neg heq]
      exact (a_star_mobility fuel _ _ req.options hm).symm
  · intro fuel req ht
    unfold compute_route
    by_cases heq : req.origin_id = req.destination_id
    · simp only [if_pos heq]
    · simp only [if_neg heq]
      exact (a_star_time fuel _ _ req.options ht).symm

/-- Witness for C10: a request with the unrecognized mobility string
`"wheelchair"` behaves exactly like `"normal"`. -/
theorem claim_C10_witness :
    compute_route 5
      { origin_id := "l1_tacubaya", destination_id := "l1_balderas",
        options := { mobility := "wheelchair" } }
      = compute_route 5
          { origin_id := "l1_tacubaya", destination_id := "l1_balderas",
            options := { transfer_penalty := 5, mobility := "normal",
                         time_of_day := "offpeak", prefer_fewer_transfers := false } } :=
  claim_C10.1 5
    { origin_id := "l1_tacubaya", destination_id := "l1_balderas",
      options := { mobility := "wheelchair" } } (by decide)

/-! ### Search-loop invariants (claims C6 and C8) -/

/-- Every stored edge carries kind `"line"` or `"transfer"`. -/
lemma edges_tags : ∀ e ∈ EDGES, e.2.2 = "line" ∨ e.2.2 = "transfer" := by decide

lemma mem_edges_isEdge {u v t : String} (h : ((u, v, t) : Edge) ∈ EDGES) :
    IsEdge u v := by
  have ht : t = "line" ∨ t = "transfer" := edges_tags _ h
  rcases ht with ht | ht
  · subst ht; exact Or.inl h
  · subst ht; exact Or.inr h

/-- Every neighbor entry comes from a stored edge and carries its cost. -/
lemma mem_neighborsOf {options : RouteOptions} {u : String}
    {nb : String × ℝ × String × Option String} (h : nb ∈ neighborsOf options u) :
    ((u, nb.1, nb.2.2.1) : Edge) ∈ EDGES
    ∧ nb.2.1 = edgeCost options (stationOf u) (stationOf nb.1) nb.2.2.1 := by
  unfold neighborsOf at h
  rw [List.mem_filterMap] at h
  obtain ⟨e, he, hfe⟩ := h
  by_cases h1 : e.1 = u
  · rw [if_pos h1] at hfe
    obtain rfl := Option.some.inj hfe
    subst h1
    exact ⟨he, rfl⟩
  · rw [if_neg h1] at hfe
    cases hfe

/-- Every graph edge out of `u` is represented in the neighbor list. -/
lemma isEdge_neighbor (options : RouteOptions) {u v : String} (h : IsEdge u v) :
    ∃ nb ∈ neighborsOf options u, nb.1 = v := by
  unfold neighborsOf
  rcases h with h | h
  · refine ⟨(v, edgeCost options (stationOf u) (stationOf v) "line", "line",
      some (stationOf u).line), List.mem_filterMap.mpr ⟨(u, v, "line"), h, ?_⟩, rfl⟩
    simp
  · refine ⟨(v, edgeCost options (stationOf u) (stationOf v) "transfer", "transfer",
      none), List.mem_filterMap.mpr ⟨(u, v, "transfer"), h, ?_⟩, rfl⟩
    simp

lemma foldl_min_mem (s : SState) : ∀ (t : List String) (acc : String),
    t.foldl (fun best n =>
      if keyLt (s.f n, s.tc n) (s.f best, s.tc best) then n else best) acc
      ∈ acc :: t := by
  intro t
  induction t with
  | nil => intro acc; simp [List.foldl]
  | cons n t ih =>
    intro acc
    simp only [List.foldl]
    by_cases h : keyLt (s.f n, s.tc n) (s.f acc, s.tc acc)
    · rw [if_pos h]
      have h' := ih n
      simp only [List.mem_cons] at h' ⊢
      tauto
    · rw [if_neg h]
      have h' := ih acc
      simp only [List.mem_cons] at h' ⊢
      tauto

/-- The selected node is a member of the open list. -/
lemma selectMin_mem (s : SState) (h : String) (t : List String) :
    selectMin s h t ∈ h :: t := foldl_min_mem s t h

/-- g-scores never decrease along a predecessor chain. -/
lemma inChain_g_mono {cf : String → Option String} {g : String → WithTop ℝ}
    (hmono : ∀ v u, cf v = some u → g u ≤ g v) :
    ∀ {x y : String}, InChain cf x y → g y ≤ g x := by
  intro x y h
  induction h with
  | refl _ => exact le_refl _
  | tail hcf _ ih => exact le_trans ih (hmono _ _ hcf)

/-- Updating the predecessor of `v` keeps origin-reachability of any node
whose chain avoids `v`. -/
lemma cfReach_update_avoid {cf : String → Option String} {origin v current : String} :
    ∀ {u : String}, CFReach cf origin u → ¬ InChain cf u v →
      CFReach (fun y => if y = v then some current else cf y) origin u := by
  intro u h
  induction h with
  | base => intro _; exact CFReach.base
  | @step x w hcf _ ih =>
    intro hav
    have hxv : x ≠ v := fun he => hav (he ▸ InChain.refl x)
    have hwav : ¬ InChain cf w v := fun hin => hav (InChain.tail hcf hin)
    exact CFReach.step
      (show (if x = v then some current else cf x) = some w by rw [if_neg hxv]; exact hcf)
      (ih hwav)

/-- Updating the predecessor of `v` to `current` keeps origin-reachability of
every node, provided `current` itself reaches the origin avoiding `v`. -/
lemma cfReach_update {cf : String → Option String} {origin v current : String}
    (hcur : CFReach cf origin current) (havoid : ¬ InChain cf current v) :
    ∀ {x : String}, CFReach cf origin x →
      CFReach (fun y => if y = v then some current else cf y) origin x := by
  intro x h
  induction h with
  | base => exact CFReach.base
  | @step a w hcf _ ih =>
    by_cases hav : a = v
    · exact CFReach.step
        (show (if a = v then some current else cf a) = some current by rw [if_pos hav])
        (cfReach_update_avoid hcur havoid)
    · exact CFReach.step
        (show (if a = v then some current else cf a) = some w by rw [if_neg hav]; exact hcf)
        ih

/-- Effect of relaxing a single neighbor on the invariant core: the core is
preserved, g-scores only decrease, the open list only grows, the relaxed
neighbor ends with finite g, and any newly-finite node is in the open list. -/
lemma relaxOne_spec (options : RouteOptions) (h0 : 0 ≤ options.transfer_penalty)
    (goal : Station) (origin current : String) (s : SState)
    (nb : String × ℝ × String × Option String)
    (hnb : nb ∈ neighborsOf options current)
    (hcur : s.g current < ⊤) (inv : SInvCore origin s) :
    SInvCore origin (relaxOne options goal current s nb)
    ∧ (∀ y, (relaxOne options goal current s nb).g y ≤ s.g y)
    ∧ (∀ x ∈ s.openl, x ∈ (relaxOne options goal current s nb).openl)
    ∧ (relaxOne options goal current s nb).g nb.1 < ⊤
    ∧ (∀ u, (relaxOne options goal current s nb).g u < ⊤ →
        s.g u < ⊤ ∨ u ∈ (relaxOne options goal current s nb).openl) := by
  obtain ⟨hE, hc⟩ := mem_neighborsOf hnb
  have hcost : (0 : ℝ) ≤ nb.2.1 := by rw [hc]; exact edgeCost_nonneg options h0 _ _ _
  have hEdge : IsEdge current nb.1 := mem_edges_isEdge hE
  unfold relaxOne
  dsimp only
  set v := nb.1 with hv
  set tentative :=
    (if options.prefer_fewer_transfers = true ∧ nb.2.2.1 = "transfer"
     then s.g current + (↑nb.2.1 : WithTop ℝ) + ((0.5 : ℝ) : WithTop ℝ)
     else s.g current + (↑nb.2.1 : WithTop ℝ)) with htdef
  have ht_ge_cur : s.g current ≤ tentative := by
    rw [htdef]
    split_ifs
    · calc s.g current ≤ s.g current + (↑nb.2.1 : WithTop ℝ) :=
          le_add_of_nonneg_right (by exact_mod_cast hcost)
        _ ≤ _ := le_add_of_nonneg_right (by exact_mod_cast (by norm_num : (0:ℝ) ≤ 0.5))
    · exact le_add_of_nonneg_right (by exact_mod_cast hcost)
  have ht_nonneg : (0 : WithTop ℝ) ≤ tentative := le_trans (inv.gNonneg current) ht_ge_cur
  have ht_lt_top : tentative < ⊤ := by
    rw [htdef]
    split_ifs
    · exact WithTop.add_lt_top.mpr
        ⟨WithTop.add_lt_top.mpr ⟨hcur, WithTop.coe_lt_top _⟩, WithTop.coe_lt_top _⟩
    · exact WithTop.add_lt_top.mpr ⟨hcur, WithTop.coe_lt_top _⟩
  by_cases hlt : tentative < s.g v
  case neg =>
    rw [if_neg hlt]
    exact ⟨inv, fun y => le_refl _, fun x hx => hx,
      lt_of_le_of_lt (not_lt.mp hlt) ht_lt_top, fun u hu => Or.inl hu⟩
  case pos =>
    rw [if_pos hlt]
    have hvc : v ≠ current := by
      intro he
      rw [he] at hlt
      exact absurd hlt (not_lt.mpr ht_ge_cur)
    have hvorigin : v ≠ origin := by
      intro he
      rw [he, inv.gOrigin] at hlt
      exact absurd hlt (not_lt.mpr ht_nonneg)
    have havoid : ¬ InChain s.cameFrom current v := by
      intro hin
      have hmono := inChain_g_mono inv.cfMono hin
      exact absurd hlt (not_lt.mpr (le_trans hmono ht_ge_cur))
    have hcurReach : CFReach s.cameFrom origin current := inv.cfReach current hcur
    have hopen_new : v ∈ (if v ∈ s.openl then s.openl else s.openl ++ [v]) := by
      split_ifs with hmem
      · exact hmem
      · exact List.mem_append_right _ (List.mem_singleton_self v)
    have hopen_sub : ∀ x ∈ s.openl, x ∈ (if v ∈ s.openl then s.openl else s.openl ++ [v]) := by
      intro x hx
      split_ifs
      · exact hx
      · exact List.mem_append_left _ hx
    refine ⟨⟨?_, ?_, ?_, ?_, ?_, ?_, ?_⟩, ?_, ?_, ?_, ?_⟩
    · show (if origin = v then tentative else s.g origin) = 0
      rw [if_neg (fun he => hvorigin he.symm)]
      exact inv.gOrigin
    · intro y
      show (0 : WithTop ℝ) ≤ (if y = v then tentative else s.g y)
      split_ifs
      · exact ht_nonneg
      · exact inv.gNonneg y
    · intro x
      show (Option.isSome (if x = v then some current else s.cameFrom x)) = true
          ↔ ((if x = v then tentative else s.g x) < ⊤ ∧ x ≠ origin)
      by_cases hx : x = v
      · rw [if_pos hx, if_pos hx]
        simp only [Option.isSome_some, true_iff]
        exact ⟨ht_lt_top, hx ▸ hvorigin⟩
      · rw [if_neg hx, if_neg hx]
        exact inv.cfDom x
    · intro x u
      show (if x = v then some current else s.cameFrom x) = some u → IsEdge u x
      by_cases hx : x = v
      · rw [if_pos hx]
        intro hsome
        obtain rfl := Option.some.inj hsome
        exact hx ▸ hEdge
      · rw [if_neg hx]
        exact inv.cfEdge x u
    · intro x u
      show (if x = v then some current else s.cameFrom x) = some u →
          (if u = v then tentative else s.g u) ≤ (if x = v then tentative else s.g x)
      by_cases hx : x = v
      · rw [if_pos hx, if_pos hx]
        intro hsome
        obtain rfl := Option.some.inj hsome
        rw [if_neg hvc.symm]
        exact ht_ge_cur
      · rw [if_neg hx, if_neg hx]
        intro hsome
        by_cases hu : u = v
        · rw [if_pos hu]
          have hxu := inv.cfMono x u hsome
          rw [hu] at hxu
          exact le_trans (le_of_lt hlt) hxu
        · rw [if_neg hu]
          exact inv.cfMono x u hsome
    · intro x
      show (if x = v then tentative else s.g x) < ⊤ →
          CFReach (fun y => if y = v then some current else s.cameFrom y) origin x
      by_cases hx : x = v
      · intro _
        refine CFReach.step ?_ (cfReach_update_avoid hcurReach havoid)
        show (if x = v then some current else s.cameFrom x) = some current
        rw [if_pos hx]
      · rw [if_neg hx]
        intro hfin
        exact cfReach_update hcurReach havoid (inv.cfReach x hfin)
    · intro y hy
      show (if y = v then tentative else s.g y) < ⊤
      by_cases hyv : y = v
      · rw [if_pos hyv]
        exact ht_lt_top
      · rw [if_neg hyv]
        exact inv.openFin y (by
          revert hy
          show y ∈ (if v ∈ s.openl then s.openl else s.openl ++ [v]) → y ∈ s.openl
          split_ifs with hmem
          · exact fun h => h
          · intro h
            rcases List.mem_append.mp h with h | h
            · exact h
            · exact absurd (List.mem_singleton.mp h) hyv)
    · intro y
      show (if y = v then tentative else s.g y) ≤ s.g y
      split_ifs with hyv
      · exact hyv ▸ le_of_lt hlt
      · exact le_refl _
    · exact hopen_sub
    · show (if v = v then tentative else s.g v) < ⊤
      rw [if_pos rfl]
      exact ht_lt_top
    · intro u
      show (if u = v then tentative else s.g u) < ⊤ →
          s.g u < ⊤ ∨ u ∈ (if v ∈ s.openl then s.openl else s.openl ++ [v])
      by_cases hu : u = v
      · intro _
        exact Or.inr (hu ▸ hopen_new)
      · rw [if_neg hu]
        exact fun h => Or.inl h

/-- Effect of relaxing a list of neighbors of `current`. -/
lemma foldl_relax_spec (options : RouteOptions) (h0 : 0 ≤ options.transfer_penalty)
    (goal : Station) (origin current : String) :
    ∀ (ns : List (String × ℝ × String × Option String)) (s : SState),
      (∀ nb ∈ ns, nb ∈ neighborsOf options current) →
      s.g current < ⊤ → SInvCore origin s →
      SInvCore origin (ns.foldl (relaxOne options goal current) s)
      ∧ (∀ y, (ns.foldl (relaxOne options goal current) s).g y ≤ s.g y)
      ∧ (∀ x ∈ s.openl, x ∈ (ns.foldl (relaxOne options goal current) s).openl)
      ∧ (∀ nb ∈ ns, (ns.foldl (relaxOne options goal current) s).g nb.1 < ⊤)
      ∧ (∀ u, (ns.foldl (relaxOne options goal current) s).g u < ⊤ →
          s.g u < ⊤ ∨ u ∈ (ns.foldl (relaxOne options goal current) s).openl) := by
  intro ns
  induction ns with
  | nil =>
    intro s _ _ inv
    exact ⟨inv, fun y => le_refl _, fun x hx => hx, by simp, fun u hu => Or.inl hu⟩
  | cons nb ns ih =>
    intro s hns hcur inv
    obtain ⟨core1, hdec1, hsub1, hfin1, hnew1⟩ :=
      relaxOne_spec options h0 goal origin current s nb (hns nb (by simp)) hcur inv
    set s1 := relaxOne options goal current s nb with hs1
    have hcur1 : s1.g current < ⊤ := lt_of_le_of_lt (hdec1 current) hcur
    obtain ⟨core2, hdec2, hsub2, hfin2, hnew2⟩ :=
      ih s1 (fun x hx => hns x (by simp [hx])) hcur1 core1
    simp only [List.foldl_cons]
    rw [← hs1]
    refine ⟨core2, ?_, ?_, ?_, ?_⟩
    · exact fun y => le_trans (hdec2 y) (hdec1 y)
    · exact fun x hx => hsub2 x (hsub1 x hx)
    · intro m hm
      rcases List.mem_cons.mp hm with rfl | hm'
      · exact lt_of_le_of_lt (hdec2 m.1) hfin1
      · exact hfin2 m hm'
    · intro u hu
      rcases hnew2 u hu with h1 | h1
      · rcases hnew1 u h1 with h2 | h2
        · exact Or.inl h2
        · exact Or.inr (hsub2 u h2)
      · exact Or.inr h1

/-- The initial search state satisfies the full invariant. -/
lemma initState_inv (origin : String) (start goal : Station) :
    SInv origin (initState origin start goal) := by
  have hg : ∀ v, (initState origin start goal).g v
      = if v = origin then (0 : WithTop ℝ) else ⊤ := fun _ => rfl
  have hfin : ∀ v, (initState origin start goal).g v < ⊤ → v = origin := by
    intro v hv
    rw [hg] at hv
    by_contra hne
    rw [if_neg hne] at hv
    exact absurd hv (lt_irrefl _)
  refine ⟨⟨?_, ?_, ?_, ?_, ?_, ?_, ?_⟩, ?_⟩
  · show (if origin = origin then (0 : WithTop ℝ) else ⊤) = 0
    rw [if_pos rfl]
  · intro v
    rw [hg]
    split_ifs
    · exact le_refl _
    · exact le_top
  · intro v
    constructor
    · intro h
      cases h
    · rintro ⟨hv, hne⟩
      exact absurd (hfin v hv) hne
  · intro v u h
    cases h
  · intro v u h
    cases h
  · intro v hv
    rw [hfin v hv]
    exact CFReach.base
  · intro v hv
    have : v = origin := List.mem_singleton.mp hv
    rw [this, hg, if_pos rfl]
    exact WithTop.coe_lt_top 0
  · intro u hu
    left
    rw [hfin u hu]
    exact List.mem_singleton_self origin

/-- The loop preserves the invariant, and on normal exit the open list is
empty or holds the destination. -/
lemma loopA_inv (options : RouteOptions) (h0 : 0 ≤ options.transfer_penalty)
    (goal : Station) (dest origin : String) :
    ∀ (fuel : ℕ) (s s' : SState), SInv origin s →
      loopA options goal dest fuel s = some s' →
      SInv origin s' ∧ (s'.openl = [] ∨ dest ∈ s'.openl) := by
  intro fuel
  induction fuel with
  | zero =>
    intro s s' _ h
    cases h
  | succ n ih =>
    intro s s' inv h
    unfold loopA at h
    cases hso : s.openl with
    | nil =>
      rw [hso] at h
      obtain rfl := Option.some.inj h
      exact ⟨inv, Or.inl hso⟩
    | cons hd tl =>
      rw [hso] at h
      dsimp only at h
      by_cases hcd : selectMin s hd tl = dest
      · rw [if_pos hcd] at h
        obtain rfl := Option.some.inj h
        refine ⟨inv, Or.inr ?_⟩
        rw [hso, ← hcd]
        exact selectMin_mem s hd tl
      · rw [if_neg hcd] at h
        have hcur_mem : selectMin s hd tl ∈ s.openl := by
          rw [hso]; exact selectMin_mem s hd tl
        have hcur_fin : s.g (selectMin s hd tl) < ⊤ := inv.openFin _ hcur_mem
        have hs1core : SInvCore origin
            { s with openl := (hd :: tl).erase (selectMin s hd tl) } :=
          ⟨inv.gOrigin, inv.gNonneg, inv.cfDom, inv.cfEdge, inv.cfMono, inv.cfReach,
           fun x hx => inv.openFin x (by rw [hso]; exact List.mem_of_mem_erase hx)⟩
        obtain ⟨core2, hdec2, hsub2, hproc2, hnew2⟩ :=
          foldl_relax_spec options h0 goal origin (selectMin s hd tl)
            (neighborsOf options (selectMin s hd tl))
            { s with openl := (hd :: tl).erase (selectMin s hd tl) }
            (fun nb hnb => hnb) hcur_fin hs1core
        have hclosed2 : ∀ u,
            ((neighborsOf options (selectMin s hd tl)).foldl
              (relaxOne options goal (selectMin s hd tl))
              { s with openl := (hd :: tl).erase (selectMin s hd tl) }).g u < ⊤ →
            u ∈ ((neighborsOf options (selectMin s hd tl)).foldl
              (relaxOne options goal (selectMin s hd tl))
              { s with openl := (hd :: tl).erase (selectMin s hd tl) }).openl
            ∨ ∀ v, IsEdge u v →
              ((neighborsOf options (selectMin s hd tl)).foldl
                (relaxOne options goal (selectMin s hd tl))
                { s with openl := (hd :: tl).erase (selectMin s hd tl) }).g v < ⊤ := by
          intro u hu
          by_cases huc : u = selectMin s hd tl
          · right
            intro v hv
            obtain ⟨nb, hnbmem, hnbv⟩ := isEdge_neighbor options (huc ▸ hv)
            exact hnbv ▸ hproc2 nb hnbmem
          · rcases hnew2 u hu with hfin | hop
            · rcases inv.closedRelax u hfin with hop' | hsucc
              · left
                apply hsub2
                show u ∈ (hd :: tl).erase (selectMin s hd tl)
                rw [List.mem_erase_of_ne huc, ← hso]
                exact hop'
              · right
                intro v hv
                exact lt_of_le_of_lt (hdec2 v) (hsucc v hv)
            · exact Or.inl hop
        exact ih _ s' ⟨core2, hclosed2⟩ h

/-- Path reconstruction follows predecessor links: if the chain head reaches
the origin, any successful reconstruction starts at the origin, keeps the
accumulator's last element, and only traverses graph edges. -/
lemma rebuild_spec (cf : String → Option String) (origin : String)
    (hedge : ∀ v u, cf v = some u → IsEdge u v) :
    ∀ (fuel : ℕ) (last : String) (rest out : List String),
      CFReach cf origin last → List.Chain' IsEdge (last :: rest) →
      rebuild cf origin fuel (last :: rest) = some out →
      out.head? = some origin ∧ out.getLast? = (last :: rest).getLast?
      ∧ List.Chain' IsEdge out := by
  intro fuel
  induction fuel with
  | zero =>
    intro last rest out _ _ h
    cases h
  | succ n ih =>
    intro last rest out hreach hchain h
    unfold rebuild at h
    dsimp only at h
    by_cases hlo : last = origin
    · rw [if_pos hlo] at h
      obtain rfl := Option.some.inj h
      exact ⟨by rw [List.head?_cons, hlo], rfl, hchain⟩
    · rw [if_neg hlo] at h
      cases hreach with
      | base => exact absurd rfl hlo
      | step hcf hreach' =>
        rw [hcf] at h
        rename_i u
        obtain ⟨hh, hl, hc⟩ := ih u (last :: rest) out hreach'
          (List.chain'_cons.mpr ⟨hedge last u hcf, hchain⟩) h
        refine ⟨hh, ?_, hc⟩
        rw [hl, List.getLast?_cons_cons]

/-- If the finite-g set is closed under edges, every node of a path whose
first node has finite g has finite g; in particular the last one. -/
lemma path_all_finite (g : String → WithTop ℝ)
    (closure : ∀ u, g u < ⊤ → ∀ v, IsEdge u v → g v < ⊤) :
    ∀ (p : List String) (o d : String), PathFromTo p o d → g o < ⊤ → g d < ⊤ := by
  intro p
  induction p with
  | nil =>
    intro o d h _
    exact absurd h.1 (by simp)
  | cons a rest ih =>
    intro o d h ho
    obtain ⟨hh, hl, hc⟩ := h
    have hoa : a = o := by simpa using hh
    cases rest with
    | nil =>
      have had : a = d := by simpa using hl
      rw [← had]
      rw [hoa]
      exact ho
    | cons b rest' =>
      have hl' : (b :: rest').getLast? = some d := by
        rw [List.getLast?_cons_cons] at hl
        exact hl
      have hc1 : IsEdge a b := (List.chain'_cons.mp hc).1
      have hc2 : List.Chain' IsEdge (b :: rest') := (List.chain'_cons.mp hc).2
      have hb : g b < ⊤ := closure a (by rw [hoa]; exact ho) b hc1
      exact ih b d ⟨rfl, hl', hc2⟩ hb

/-- Claim C8: every successful route computation returns a path that starts
at the origin, ends at the destination, and follows graph edges. -/
theorem claim_C8 (fuel : ℕ) (req : RouteRequest) (r : RouteResult)
    (hpen : 0 ≤ req.options.transfer_penalty)
    (h : compute_route fuel req = some (Except.ok r)) :
    PathFromTo r.path req.origin_id req.destination_id := by
  unfold compute_route at h
  by_cases heq : req.origin_id = req.destination_id
  · rw [if_pos heq] at h
    cases hfo : findStation req.origin_id with
    | none =>
      rw [hfo] at h
      exact absurd h (by simp)
    | some st =>
      rw [hfo] at h
      obtain rfl := Except.ok.inj (Option.some.inj h)
      have hid : st.id = req.origin_id := by
        unfold findStation at hfo
        have := List.find?_some hfo
        simpa using this
      refine ⟨?_, ?_, ?_⟩
      · show [st.id].head? = some req.origin_id
        rw [List.head?_cons, hid]
      · show [st.id].getLast? = some req.destination_id
        rw [show [st.id].getLast? = some st.id from rfl, hid, heq]
      · exact List.chain'_singleton _
  · rw [if_neg heq] at h
    unfold a_star at h
    cases hfo : findStation req.origin_id with
    | none =>
      rw [hfo] at h
      exact absurd h (by simp)
    | some start =>
      cases hfd : findStation req.destination_id with
      | none =>
        rw [hfo, hfd] at h
        exact absurd h (by simp)
      | some goal =>
        rw [hfo, hfd] at h
        dsimp only at h
        cases hloop : loopA req.options goal req.destination_id fuel
            (initState req.origin_id start goal) with
        | none =>
          rw [hloop] at h
          cases h
        | some s =>
          rw [hloop] at h
          dsimp only at h
          obtain ⟨invS, hexit⟩ := loopA_inv req.options hpen goal req.destination_id
            req.origin_id fuel _ s (initState_inv req.origin_id start goal) hloop
          by_cases hnr : s.cameFrom req.destination_id = none ∧ req.destination_id ≠ req.origin_id
          · rw [if_pos hnr] at h
            exact absurd h (by simp)
          · rw [if_neg hnr] at h
            have hcf : s.cameFrom req.destination_id ≠ none := by
              intro hnone
              exact hnr ⟨hnone, fun he => heq he.symm⟩
            have hfin : s.g req.destination_id < ⊤ :=
              ((invS.cfDom _).mp (Option.isSome_iff_ne_none.mpr hcf)).1
            have hreach : CFReach s.cameFrom req.origin_id req.destination_id :=
              invS.cfReach _ hfin
            cases hrb : rebuild s.cameFrom req.origin_id fuel [req.destination_id] with
            | none =>
              rw [hrb] at h
              cases h
            | some p =>
              rw [hrb] at h
              obtain rfl := Except.ok.inj (Option.some.inj h)
              obtain ⟨hh, hl, hch⟩ := rebuild_spec s.cameFrom req.origin_id invS.cfEdge
                fuel req.destination_id [] p hreach (List.chain'_singleton _) hrb
              exact ⟨hh, by simpa using hl, hch⟩

/-- Claim C6: with known distinct endpoints and a terminating run,
`NoRouteFound` is returned exactly when no path joins origin to destination;
moreover `StationNotFound` and `NoRouteFound` are the only failure values. -/
theorem claim_C6 (fuel : ℕ) (o d : String) (options : RouteOptions)
    (r : Except Err RouteResult)
    (ho : (findStation o).isSome = true) (hd : (findStation d).isSome = true)
    (hne : o ≠ d) (hpen : 0 ≤ options.transfer_penalty)
    (h : a_star fuel o d options = some r) :
    ((r = Except.error Err.noRouteFound) ↔ ¬ ∃ p, PathFromTo p o d)
    ∧ ∀ e : Err, e = Err.stationNotFound ∨ e = Err.noRouteFound := by
  refine ⟨?_, fun e => by cases e <;> simp⟩
  obtain ⟨start, hfo⟩ := Option.isSome_iff_exists.mp ho
  obtain ⟨goal, hfd⟩ := Option.isSome_iff_exists.mp hd
  unfold a_star at h
  rw [hfo, hfd] at h
  dsimp only at h
  cases hloop : loopA options goal d fuel (initState o start goal) with
  | none =>
    rw [hloop] at h
    cases h
  | some s =>
    rw [hloop] at h
    dsimp only at h
    obtain ⟨invS, hexit⟩ := loopA_inv options hpen goal d o fuel _ s
      (initState_inv o start goal) hloop
    by_cases hnr : s.cameFrom d = none ∧ d ≠ o
    · rw [if_pos hnr] at h
      obtain rfl := Option.some.inj h
      constructor
      · intro _
        rintro ⟨p, hp⟩
        have hgd : ¬ s.g d < ⊤ := by
          intro hfin
          have hsome : (s.cameFrom d).isSome := (invS.cfDom d).mpr ⟨hfin, hnr.2⟩
          rw [hnr.1] at hsome
          exact absurd hsome (by simp)
        rcases hexit with hempty | hmem
        · have hclosure : ∀ u, s.g u < ⊤ → ∀ v, IsEdge u v → s.g v < ⊤ := by
            intro u hu
            rcases invS.closedRelax u hu with hop | hs
            · rw [hempty] at hop
              cases hop
            · exact hs
          have hgo : s.g o < ⊤ := by
            rw [invS.gOrigin]
            exact WithTop.coe_lt_top (0 : ℝ)
          exact hgd (path_all_finite s.g hclosure p o d hp hgo)
        · exact hgd (invS.openFin d hmem)
      · intro _
        rfl
    · rw [if_neg hnr] at h
      have hcf : s.cameFrom d ≠ none := fun hnone => hnr ⟨hnone, fun he => hne he.symm⟩
      have hfin : s.g d < ⊤ :=
        ((invS.cfDom d).mp (Option.isSome_iff_ne_none.mpr hcf)).1
      have hreach := invS.cfReach d hfin
      cases hrb : rebuild s.cameFrom o fuel [d] with
      | none =>
        rw [hrb] at h
        cases h
      | some p =>
        rw [hrb] at h
        obtain rfl := Option.some.inj h
        obtain ⟨hh, hl, hch⟩ := rebuild_spec s.cameFrom o invS.cfEdge fuel d [] p
          hreach (List.chain'_singleton _) hrb
        constructor
        · intro habs
          exact absurd habs (by simp)
        · intro hno
          exact absurd ⟨p, hh, by simpa using hl, hch⟩ hno

set_option maxRecDepth 100000 in
lemma nb_rosario : neighborsOf {} "l6_el_rosario"
    = [("l6_tezozomoc",
        edgeCost {} (stationOf "l6_el_rosario") (stationOf "l6_tezozomoc") "line",
        "line", some "6")] := rfl

lemma find_rosario : findStation "l6_el_rosario"
    = some (stationOf "l6_el_rosario") := rfl

lemma find_tezozomoc : findStation "l6_tezozomoc"
    = some (stationOf "l6_tezozomoc") := rfl

set_option maxRecDepth 100000 in
/-- A fully evaluated two-iteration search: El Rosario to Tezozómoc on
line 6 (adjacent stations), default options. -/
lemma rosario_run :
    a_star 2 "l6_el_rosario" "l6_tezozomoc" {}
      = some (Except.ok (assembleResult {} ["l6_el_rosario", "l6_tezozomoc"])) := by
  have hne1 : ("l6_el_rosario" : String) ≠ "l6_tezozomoc" := by decide
  have hne2 : ("l6_tezozomoc" : String) ≠ "l6_el_rosario" := by decide
  simp only [a_star, loopA, rebuild, initState, selectMin, relaxOne, nb_rosario,
    find_rosario, find_tezozomoc,
    List.foldl, hne1, hne2, if_true, if_false, ite_true, ite_false, ne_eq,
    not_false_iff, not_true, if_pos, WithTop.coe_lt_top, zero_add]
  norm_num [WithTop.coe_lt_top]
  exact fun hcontra => Option.noConfusion hcontra

/-- Witness for C6 at the evaluated run: the returned value is a success,
so the iff certifies that a path exists. -/
theorem claim_C6_witness :
    ((Except.ok (assembleResult {} ["l6_el_rosario", "l6_tezozomoc"])
        = Except.error Err.noRouteFound)
      ↔ ¬ ∃ p, PathFromTo p "l6_el_rosario" "l6_tezozomoc")
    ∧ ∀ e : Err, e = Err.stationNotFound ∨ e = Err.noRouteFound :=
  claim_C6 2 "l6_el_rosario" "l6_tezozomoc" {} _ (by decide) (by decide)
    (by decide) (by norm_num) rosario_run

/-- Witness for C8 at the evaluated run. -/
theorem claim_C8_witness :
    PathFromTo (assembleResult {} ["l6_el_rosario", "l6_tezozomoc"]).path
      "l6_el_rosario" "l6_tezozomoc" :=
  claim_C8 2 { origin_id := "l6_el_rosario", destination_id := "l6_tezozomoc" }
    (assembleResult {} ["l6_el_rosario", "l6_tezozomoc"]) (by norm_num)
    (by
      unfold compute_route
      rw [if_neg (by decide : ¬("l6_el_rosario" : String) = "l6_tezozomoc")]
      exact rosario_run)

/-! ### Optimality of the search without the tie-break adjustment (claim C1) -/

set_option maxRecDepth 1000000 in
/-- No transfer-tagged edge pair is also stored as a line edge. -/
lemma transfer_not_line : ∀ e ∈ EDGES, e.2.2 = "transfer" →
    ((e.1, e.2.1, "line") : Edge) ∉ EDGES := by decide

/-- No line-tagged edge pair is also stored as a transfer edge, so the
membership-derived kind agrees with the stored kind. -/
lemma line_not_transfer : ∀ e ∈ EDGES, e.2.2 = "line" →
    ((e.1, e.2.1, "transfer") : Edge) ∉ EDGES := by
  intro e he h2 hmem
  have h := transfer_not_line (e.1, e.2.1, "transfer") hmem rfl
  apply h
  show ((e.1, e.2.1, "line") : Edge) ∈ EDGES
  rw [← h2]
  exact he

lemma segCost_edge_line (options : RouteOptions) (a b : String) :
    segCost options a b "line" = edgeCost options (stationOf a) (stationOf b) "line" := by
  have hlt : ("line" : String) ≠ "transfer" := by decide
  unfold segCost edgeCost
  simp [hlt]

lemma segCost_edge_transfer (options : RouteOptions) (a b : String) :
    segCost options a b "transfer"
      = edgeCost options (stationOf a) (stationOf b) "transfer" := by
  unfold segCost edgeCost
  simp

/-- For a stored edge, the canonical (membership-derived) per-pair cost
equals the stored-kind cost used by the search. -/
lemma w_eq_entry (options : RouteOptions) {u v t : String}
    (h : ((u, v, t) : Edge) ∈ EDGES) :
    segCost options u v (kindOf u v) = edgeCost options (stationOf u) (stationOf v) t := by
  have ht : t = "line" ∨ t = "transfer" := edges_tags _ h
  rcases ht with ht | ht
  · subst ht
    have hk : kindOf u v = "line" := by
      unfold kindOf
      rw [if_neg (line_not_transfer (u, v, "line") h rfl)]
    rw [hk]
    exact segCost_edge_line options u v
  · subst ht
    have hk : kindOf u v = "transfer" := by
      unfold kindOf
      rw [if_pos h]
    rw [hk]
    exact segCost_edge_transfer options u v

lemma pathCost_single (options : RouteOptions) (x : String) :
    pathCost options [x] = 0 := rfl

lemma pathCost_cons_cons (options : RouteOptions) (a b : String) (rest : List String) :
    pathCost options (a :: b :: rest)
      = segCost options a b (kindOf a b) + pathCost options (b :: rest) := by
  unfold pathCost
  rw [pathPairs_cons_cons, List.map_cons, List.sum_cons]

/-- Splitting consecutive pairs at an interior node. -/
lemma pathPairs_append (q r : List String) (x : String) (h : q.getLast? = some x) :
    pathPairs (q ++ r) = pathPairs q ++ pathPairs (x :: r) := by
  induction q with
  | nil => cases h
  | cons a q' ih =>
    cases q' with
    | nil =>
      have hax : a = x := by simpa using h
      subst hax
      simp [pathPairs]
    | cons b q'' =>
      have h' : (b :: q'').getLast? = some x := by
        rw [List.getLast?_cons_cons] at h
        exact h
      have hstep : pathPairs ((a :: b :: q'') ++ r)
          = (a, b) :: pathPairs ((b :: q'') ++ r) := rfl
      rw [hstep, ih h', pathPairs_cons_cons, List.cons_append]

lemma pathCost_append (options : RouteOptions) (q r : List String) (x : String)
    (h : q.getLast? = some x) :
    pathCost options (q ++ r) = pathCost options q + pathCost options (x :: r) := by
  unfold pathCost
  rw [pathPairs_append q r x h, List.map_append, List.sum_append]

lemma pathCost_nonneg (options : RouteOptions) (h0 : 0 ≤ options.transfer_penalty)
    (p : List String) : 0 ≤ pathCost options p := by
  unfold pathCost
  apply List.sum_nonneg
  intro c hc
  simp only [List.mem_map] at hc
  obtain ⟨ab, -, rfl⟩ := hc
  exact segCost_nonneg options h0 ab.1 ab.2 _

/-- Extending a path by one edge at its end. -/
lemma pathFromTo_extend {q : List String} {o x y : String}
    (hq : PathFromTo q o x) (he : IsEdge x y) : PathFromTo (q ++ [y]) o y := by
  obtain ⟨hh, hl, hc⟩ := hq
  refine ⟨?_, ?_, ?_⟩
  · cases q with
    | nil => cases hh
    | cons a q' => simpa using hh
  · simp
  · have := List.chain'_append.mpr ⟨hc, List.chain'_singleton y, ?_⟩
    · exact this
    · intro a ha b hb
      have hax : a = x := by
        rw [hl] at ha
        exact (Option.some.inj (Option.mem_def.mp ha)).symm
      have hby : b = y := (Option.some.inj (Option.mem_def.mp hb)).symm
      rw [hax, hby]
      exact he

lemma pathCost_snoc (options : RouteOptions) (q : List String) (x y : String)
    (h : q.getLast? = some x) :
    pathCost options (q ++ [y])
      = pathCost options q + segCost options x y (kindOf x y) := by
  rw [pathCost_append options q [y] x h, pathCost_cons_cons, pathCost_single]
  ring

lemma stationOf_of_find {sid : String} {st : Station}
    (h : findStation sid = some st) : stationOf sid = st := by
  unfold stationOf
  rw [h]
  rfl

set_option maxRecDepth 1000000 in
/-- The edge list has no self-loops. -/
lemma no_self_edge : ∀ e ∈ EDGES, e.1 ≠ e.2.1 := by decide

lemma neighbor_ne (options : RouteOptions) {u : String}
    {nb : String × ℝ × String × Option String}
    (h : nb ∈ neighborsOf options u) : nb.1 ≠ u := by
  obtain ⟨hE, -⟩ := mem_neighborsOf h
  exact (no_self_edge (u, nb.1, nb.2.2.1) hE).symm

/-- The step cost stored in a neighbor entry is the canonical per-pair cost. -/
lemma neighbor_w (options : RouteOptions) {u : String}
    {nb : String × ℝ × String × Option String}
    (h : nb ∈ neighborsOf options u) :
    segCost options u nb.1 (kindOf u nb.1) = nb.2.1 := by
  obtain ⟨hE, hc⟩ := mem_neighborsOf h
  rw [hc]
  exact w_eq_entry options hE

lemma keyLt_f_le {a b : WithTop ℝ × ℕ} (h : keyLt a b) : a.1 ≤ b.1 := by
  rcases h with h | ⟨h, -⟩
  · exact le_of_lt h
  · exact le_of_eq h

lemma not_keyLt_f_le {a b : WithTop ℝ × ℕ} (h : ¬ keyLt a b) : b.1 ≤ a.1 :=
  le_of_not_lt (fun hl => h (Or.inl hl))

/-- The node picked by the `min(open_set, key=...)` fold has minimal f-score
among the candidates. -/
lemma selectMin_fmin (s : SState) : ∀ (t : List String) (h : String),
    ∀ y ∈ h :: t, s.f (selectMin s h t) ≤ s.f y := by
  intro t
  induction t with
  | nil =>
    intro h y hy
    have hyh : y = h := List.mem_singleton.mp hy
    rw [hyh]
    exact le_of_eq rfl
  | cons b t' ih =>
    intro h y hy
    have hsel : selectMin s h (b :: t')
        = selectMin s (if keyLt (s.f b, s.tc b) (s.f h, s.tc h) then b else h) t' := rfl
    by_cases hk : keyLt (s.f b, s.tc b) (s.f h, s.tc h)
    · have hsel2 : selectMin s h (b :: t') = selectMin s b t' := by rw [hsel, if_pos hk]
      rw [hsel2]
      have hminb : s.f (selectMin s b t') ≤ s.f b := ih b b (List.mem_cons_self b t')
      rcases List.mem_cons.mp hy with rfl | hy'
      · exact le_trans hminb (keyLt_f_le hk)
      · rcases List.mem_cons.mp hy' with rfl | hy''
        · exact hminb
        · exact ih b y (List.mem_cons_of_mem b hy'')
    · have hsel2 : selectMin s h (b :: t') = selectMin s h t' := by rw [hsel, if_neg hk]
      rw [hsel2]
      have hminh : s.f (selectMin s h t') ≤ s.f h := ih h h (List.mem_cons_self h t')
      rcases List.mem_cons.mp hy with rfl | hy'
      · exact hminh
      · rcases List.mem_cons.mp hy' with rfl | hy''
        · exact le_trans hminh (not_keyLt_f_le hk)
        · exact ih h y (List.mem_cons_of_mem h hy'')

/-- Walking a path forward through quantitatively relaxed closed nodes:
either the whole path bounds the g-score of its endpoint, or the path
crosses the open frontier at a node bounded by its prefix cost. -/
lemma walk_crossing (options : RouteOptions) (origin : String) (s : SState)
    (hrel : ∀ u, s.g u < ⊤ → u ∈ s.openl ∨ ∀ v, IsEdge u v →
      s.g v ≤ s.g u + ((segCost options u v (kindOf u v) : ℝ) : WithTop ℝ)) :
    ∀ (r q : List String) (x z : String),
      PathFromTo q origin x → PathFromTo (x :: r) x z →
      s.g x ≤ ((pathCost options q : ℝ) : WithTop ℝ) →
      s.g z ≤ ((pathCost options (q ++ r) : ℝ) : WithTop ℝ)
      ∨ ∃ x' q' r', q ++ r = q' ++ r' ∧ PathFromTo q' origin x'
          ∧ PathFromTo (x' :: r') x' z ∧ x' ∈ s.openl
          ∧ s.g x' ≤ ((pathCost options q' : ℝ) : WithTop ℝ) := by
  intro r
  induction r with
  | nil =>
    intro q x z hq hxz hgx
    left
    have hxz' : x = z := by simpa using hxz.2.1
    rw [List.append_nil, ← hxz']
    exact hgx
  | cons y r' ih =>
    intro q x z hq hxz hgx
    have hexy : IsEdge x y := (List.chain'_cons.mp hxz.2.2).1
    have hgxfin : s.g x < ⊤ := lt_of_le_of_lt hgx (WithTop.coe_lt_top _)
    rcases hrel x hgxfin with hopen | hrelx
    · exact Or.inr ⟨x, q, y :: r', rfl, hq, hxz, hopen, hgx⟩
    · have hqx : q.getLast? = some x := hq.2.1
      have hq' : PathFromTo (q ++ [y]) origin y := pathFromTo_extend hq hexy
      have hyz : PathFromTo (y :: r') y z :=
        ⟨rfl, by have h2 := hxz.2.1; rw [List.getLast?_cons_cons] at h2; exact h2,
         (List.chain'_cons.mp hxz.2.2).2⟩
      have hgy : s.g y ≤ ((pathCost options (q ++ [y]) : ℝ) : WithTop ℝ) := by
        rw [pathCost_snoc options q x y hqx, WithTop.coe_add]
        calc s.g y ≤ s.g x + ((segCost options x y (kindOf x y) : ℝ) : WithTop ℝ) :=
              hrelx y hexy
          _ ≤ ((pathCost options q : ℝ) : WithTop ℝ)
              + ((segCost options x y (kindOf x y) : ℝ) : WithTop ℝ) :=
              add_le_add_right hgx _
      have hassoc : q ++ y :: r' = (q ++ [y]) ++ r' := by
        rw [List.append_assoc, List.singleton_append]
      rcases ih (q ++ [y]) y z hq' hyz hgy with hL | ⟨x', q', r'', hd2, a1, a2, a3, a4⟩
      · left
        rw [hassoc]
        exact hL
      · right
        exact ⟨x', q', r'', by rw [hassoc, hd2], a1, a2, a3, a4⟩

/-- Quantitative effect of one relaxation when the tie-break adjustment is
off: the current node's g is untouched, g only decreases, the f = g + h and
predecessor-relaxation properties persist, the relaxed target obeys the
edge bound, and any strictly improved node is left in the open list. -/
lemma relaxOne_opt (options : RouteOptions)
    (hpref : options.prefer_fewer_transfers = false) (goal : Station)
    (current : String) (s : SState)
    (nb : String × ℝ × String × Option String)
    (hnb : nb ∈ neighborsOf options current) (hnc : nb.1 ≠ current)
    (hfg : ∀ v, s.f v = s.g v + ((dist2 (stationOf v) goal : ℝ) : WithTop ℝ))
    (hq : ∀ v u, s.cameFrom v = some u →
      s.g u + ((segCost options u v (kindOf u v) : ℝ) : WithTop ℝ) ≤ s.g v) :
    (relaxOne options goal current s nb).g current = s.g current
    ∧ (∀ y, (relaxOne options goal current s nb).g y ≤ s.g y)
    ∧ (∀ x ∈ s.openl, x ∈ (relaxOne options goal current s nb).openl)
    ∧ (∀ v, (relaxOne options goal current s nb).f v
        = (relaxOne options goal current s nb).g v
          + ((dist2 (stationOf v) goal : ℝ) : WithTop ℝ))
    ∧ (∀ v u, (relaxOne options goal current s nb).cameFrom v = some u →
        (relaxOne options goal current s nb).g u
          + ((segCost options u v (kindOf u v) : ℝ) : WithTop ℝ)
        ≤ (relaxOne options goal current s nb).g v)
    ∧ (relaxOne options goal current s nb).g nb.1
        ≤ (relaxOne options goal current s nb).g current + ((nb.2.1 : ℝ) : WithTop ℝ)
    ∧ (∀ u, (relaxOne options goal current s nb).g u < s.g u →
        u ∈ (relaxOne options goal current s nb).openl) := by
  have hcond : ¬ (options.prefer_fewer_transfers = true ∧ nb.2.2.1 = "transfer") := by
    rintro ⟨h1, -⟩
    rw [hpref] at h1
    cases h1
  have hcurv : ¬ (current = nb.1) := fun he => hnc he.symm
  unfold relaxOne
  dsimp only
  rw [if_neg hcond]
  by_cases hlt : s.g current + ((nb.2.1 : ℝ) : WithTop ℝ) < s.g nb.1
  case neg =>
    rw [if_neg hlt]
    exact ⟨rfl, fun y => le_refl _, fun x hx => hx, hfg, hq, not_lt.mp hlt,
      fun u hu => absurd hu (lt_irrefl _)⟩
  case pos =>
    rw [if_pos hlt]
    refine ⟨?_, ?_, ?_, ?_, ?_, ?_, ?_⟩
    · show (if current = nb.1 then _ else s.g current) = s.g current
      rw [if_neg hcurv]
    · intro y
      show (if y = nb.1 then _ else s.g y) ≤ s.g y
      split_ifs with hyv
      · exact hyv ▸ le_of_lt hlt
      · exact le_refl _
    · intro x hx
      show x ∈ (if nb.1 ∈ s.openl then s.openl else s.openl ++ [nb.1])
      split_ifs
      · exact hx
      · exact List.mem_append_left _ hx
    · intro v
      show (if v = nb.1
            then s.g current + ((nb.2.1 : ℝ) : WithTop ℝ)
              + ((dist2 (stationOf nb.1) goal : ℝ) : WithTop ℝ)
            else s.f v)
          = (if v = nb.1 then s.g current + ((nb.2.1 : ℝ) : WithTop ℝ) else s.g v)
            + ((dist2 (stationOf v) goal : ℝ) : WithTop ℝ)
      by_cases hv : v = nb.1
      · rw [if_pos hv, if_pos hv, hv]
      · rw [if_neg hv, if_neg hv]
        exact hfg v
    · intro w u hcf
      have hcf' : (if w = nb.1 then some current else s.cameFrom w) = some u := hcf
      by_cases hwv : w = nb.1
      · rw [if_pos hwv] at hcf'
        obtain rfl := Option.some.inj hcf'
        show (if current = nb.1 then s.g current + ((nb.2.1 : ℝ) : WithTop ℝ)
              else s.g current)
            + ((segCost options current w (kindOf current w) : ℝ) : WithTop ℝ)
            ≤ (if w = nb.1 then s.g current + ((nb.2.1 : ℝ) : WithTop ℝ) else s.g w)
        rw [if_neg hcurv, if_pos hwv, hwv, neighbor_w options hnb]
      · rw [if_neg hwv] at hcf'
        show (if u = nb.1 then s.g current + ((nb.2.1 : ℝ) : WithTop ℝ) else s.g u)
            + ((segCost options u w (kindOf u w) : ℝ) : WithTop ℝ)
            ≤ (if w = nb.1 then s.g current + ((nb.2.1 : ℝ) : WithTop ℝ) else s.g w)
        rw [if_neg hwv]
        by_cases huv : u = nb.1
        · rw [if_pos huv]
          calc s.g current + ((nb.2.1 : ℝ) : WithTop ℝ)
              + ((segCost options u w (kindOf u w) : ℝ) : WithTop ℝ)
              ≤ s.g u + ((segCost options u w (kindOf u w) : ℝ) : WithTop ℝ) :=
                add_le_add_right (by rw [huv]; exact le_of_lt hlt) _
            _ ≤ s.g w := hq w u hcf'
        · rw [if_neg huv]
          exact hq w u hcf'
    · show (if nb.1 = nb.1 then _ else s.g nb.1)
          ≤ (if current = nb.1 then _ else s.g current) + ((nb.2.1 : ℝ) : WithTop ℝ)
      rw [if_pos rfl, if_neg hcurv]
    · intro u hu
      show u ∈ (if nb.1 ∈ s.openl then s.openl else s.openl ++ [nb.1])
      by_cases huv : u = nb.1
      · rw [huv]
        split_ifs with hmem
        · exact hmem
        · exact List.mem_append_right _ (List.mem_singleton_self nb.1)
      · exfalso
        revert hu
        show ¬ ((if u = nb.1 then _ else s.g u) < s.g u)
        rw [if_neg huv]
        exact lt_irrefl _

/-- The quantitative relaxation properties of `relaxOne_opt`, propagated
through the relaxation of a whole neighbor list. -/
lemma foldl_relax_opt (options : RouteOptions)
    (hpref : options.prefer_fewer_transfers = false) (goal : Station)
    (current : String) :
    ∀ (ns : List (String × ℝ × String × Option String)) (s : SState),
      (∀ nb ∈ ns, nb ∈ neighborsOf options current) →
      (∀ v, s.f v = s.g v + ((dist2 (stationOf v) goal : ℝ) : WithTop ℝ)) →
      (∀ v u, s.cameFrom v = some u →
        s.g u + ((segCost options u v (kindOf u v) : ℝ) : WithTop ℝ) ≤ s.g v) →
      (ns.foldl (relaxOne options goal current) s).g current = s.g current
      ∧ (∀ y, (ns.foldl (relaxOne options goal current) s).g y ≤ s.g y)
      ∧ (∀ x ∈ s.openl, x ∈ (ns.foldl (relaxOne options goal current) s).openl)
      ∧ (∀ v, (ns.foldl (relaxOne options goal current) s).f v
          = (ns.foldl (relaxOne options goal current) s).g v
            + ((dist2 (stationOf v) goal : ℝ) : WithTop ℝ))
      ∧ (∀ v u, (ns.foldl (relaxOne options goal current) s).cameFrom v = some u →
          (ns.foldl (relaxOne options goal current) s).g u
            + ((segCost options u v (kindOf u v) : ℝ) : WithTop ℝ)
          ≤ (ns.foldl (relaxOne options goal current) s).g v)
      ∧ (∀ nb ∈ ns, (ns.foldl (relaxOne options goal current) s).g nb.1
          ≤ (ns.foldl (relaxOne options goal current) s).g current
            + ((nb.2.1 : ℝ) : WithTop ℝ))
      ∧ (∀ u, (ns.foldl (relaxOne options goal current) s).g u < s.g u →
          u ∈ (ns.foldl (relaxOne options goal current) s).openl) := by
  intro ns
  induction ns with
  | nil =>
    intro s _ hfg hq
    exact ⟨rfl, fun y => le_refl _, fun x hx => hx, hfg, hq, by simp,
      fun u hu => absurd hu (lt_irrefl _)⟩
  | cons nb ns ih =>
    intro s hns hfg hq
    have hnb := hns nb (List.mem_cons_self nb ns)
    have hnc : nb.1 ≠ current := neighbor_ne options hnb
    obtain ⟨hcur1, hdec1, hsub1, hfg1, hq1, htar1, hstr1⟩ :=
      relaxOne_opt options hpref goal current s nb hnb hnc hfg hq
    set s1 := relaxOne options goal current s nb with hs1
    obtain ⟨hcur2, hdec2, hsub2, hfg2, hq2, htar2, hstr2⟩ :=
      ih s1 (fun x hx => hns x (List.mem_cons_of_mem nb hx)) hfg1 hq1
    simp only [List.foldl_cons]
    rw [← hs1]
    refine ⟨by rw [hcur2, hcur1], fun y => le_trans (hdec2 y) (hdec1 y),
      fun x hx => hsub2 x (hsub1 x hx), hfg2, hq2, ?_, ?_⟩
    · intro m hm
      rcases List.mem_cons.mp hm with rfl | hm'
      · calc (ns.foldl (relaxOne options goal current) s1).g m.1
            ≤ s1.g m.1 := hdec2 m.1
          _ ≤ s1.g current + ((m.2.1 : ℝ) : WithTop ℝ) := htar1
          _ = (ns.foldl (relaxOne options goal current) s1).g current
              + ((m.2.1 : ℝ) : WithTop ℝ) := by rw [hcur2]
      · exact htar2 m hm'
    · intro u hu
      by_cases h2 : (ns.foldl (relaxOne options goal current) s1).g u < s1.g u
      · exact hstr2 u h2
      · have heq : (ns.foldl (relaxOne options goal current) s1).g u = s1.g u :=
          le_antisymm (hdec2 u) (not_lt.mp h2)
        rw [heq] at hu
        exact hsub2 u (hstr1 u hu)

/-- With the tie-break adjustment off, the A* loop preserves the optimality
invariant, and on normal exit the open list is empty or the destination is
open with minimal f-score. -/
lemma loopA_opt (options : RouteOptions) (h0 : 0 ≤ options.transfer_penalty)
    (hpref : options.prefer_fewer_transfers = false) (goal : Station)
    (dest origin : String) :
    ∀ (fuel : ℕ) (s s' : SState), OInv options origin goal s →
      loopA options goal dest fuel s = some s' →
      OInv options origin goal s'
      ∧ (s'.openl = [] ∨ (dest ∈ s'.openl ∧ ∀ y ∈ s'.openl, s'.f dest ≤ s'.f y)) := by
  intro fuel
  induction fuel with
  | zero => intro s s' _ h; cases h
  | succ n ih =>
    intro s s' inv h
    unfold loopA at h
    cases hso : s.openl with
    | nil =>
      rw [hso] at h
      obtain rfl := Option.some.inj h
      exact ⟨inv, Or.inl hso⟩
    | cons hd tl =>
      rw [hso] at h
      dsimp only at h
      by_cases hcd : selectMin s hd tl = dest
      · rw [if_pos hcd] at h
        obtain rfl := Option.some.inj h
        refine ⟨inv, Or.inr ⟨?_, ?_⟩⟩
        · rw [hso, ← hcd]
          exact selectMin_mem s hd tl
        · intro y hy
          rw [← hcd]
          exact selectMin_fmin s tl hd y (by rw [← hso]; exact hy)
      · rw [if_neg hcd] at h
        set cur := selectMin s hd tl with hcurdef
        have hcur_mem : cur ∈ s.openl := by rw [hso]; exact selectMin_mem s hd tl
        have hcur_fin : s.g cur < ⊤ := inv.openFin _ hcur_mem
        set s1 : SState := { s with openl := (hd :: tl).erase cur } with hs1def
        have hs1core : SInvCore origin s1 :=
          ⟨inv.gOrigin, inv.gNonneg, inv.cfDom, inv.cfEdge, inv.cfMono, inv.cfReach,
           fun x hx => inv.openFin x (by rw [hso]; exact List.mem_of_mem_erase hx)⟩
        set s2 := (neighborsOf options cur).foldl (relaxOne options goal cur) s1
          with hs2def
        obtain ⟨core2, hdec2, hsub2, hproc2, hnew2⟩ :=
          foldl_relax_spec options h0 goal origin cur
            (neighborsOf options cur) s1 (fun nb hnb => hnb) hcur_fin hs1core
        obtain ⟨hgcur2, hdec2', hsub2', hfg2, hq2, htar2, hstr2⟩ :=
          foldl_relax_opt options hpref goal cur
            (neighborsOf options cur) s1 (fun nb hnb => hnb) inv.fg inv.cfMonoQ
        have hcurEdges : ∀ v, IsEdge cur v → s2.g v
            ≤ s2.g cur + ((segCost options cur v (kindOf cur v) : ℝ) : WithTop ℝ) := by
          intro v hv
          obtain ⟨nb, hnbmem, rfl⟩ := isEdge_neighbor options hv
          rw [neighbor_w options hnbmem]
          exact htar2 nb hnbmem
        have hclosed2 : ∀ u, s2.g u < ⊤ → u ∈ s2.openl
            ∨ ∀ v, IsEdge u v → s2.g v < ⊤ := by
          intro u hu
          by_cases huc : u = cur
          · right
            intro v hv
            obtain ⟨nb, hnbmem, hnbv⟩ := isEdge_neighbor options (huc ▸ hv)
            exact hnbv ▸ hproc2 nb hnbmem
          · rcases hnew2 u hu with hfin | hop
            · rcases inv.closedRelax u hfin with hop' | hsucc
              · left
                apply hsub2
                show u ∈ (hd :: tl).erase cur
                rw [List.mem_erase_of_ne huc, ← hso]
                exact hop'
              · right
                intro v hv
                exact lt_of_le_of_lt (hdec2 v) (hsucc v hv)
            · exact Or.inl hop
        have hrel2 : ∀ u, s2.g u < ⊤ → u ∈ s2.openl ∨ ∀ v, IsEdge u v →
            s2.g v ≤ s2.g u + ((segCost options u v (kindOf u v) : ℝ) : WithTop ℝ) := by
          intro u hu
          by_cases huc : u = cur
          · subst huc
            exact Or.inr hcurEdges
          · rcases hnew2 u hu with hfin | hop
            · rcases inv.relaxedQuant u hfin with hop' | hrelu
              · left
                apply hsub2
                show u ∈ (hd :: tl).erase cur
                rw [List.mem_erase_of_ne huc, ← hso]
                exact hop'
              · by_cases hchg : s2.g u < s1.g u
                · exact Or.inl (hstr2 u hchg)
                · right
                  intro v hv
                  have hequ : s2.g u = s1.g u := le_antisymm (hdec2' u) (not_lt.mp hchg)
                  calc s2.g v ≤ s1.g v := hdec2' v
                    _ ≤ s1.g u
                        + ((segCost options u v (kindOf u v) : ℝ) : WithTop ℝ) :=
                        hrelu v hv
                    _ = s2.g u
                        + ((segCost options u v (kindOf u v) : ℝ) : WithTop ℝ) := by
                        rw [hequ]
            · exact Or.inl hop
        have hcross2 : ∀ z p, PathFromTo p origin z →
            s2.g z ≤ ((pathCost options p : ℝ) : WithTop ℝ)
            ∨ ∃ x q r, p = q ++ r ∧ PathFromTo q origin x ∧ PathFromTo (x :: r) x z
                ∧ x ∈ s2.openl ∧ s2.g x ≤ ((pathCost options q : ℝ) : WithTop ℝ) := by
          intro z p hp
          rcases inv.crossing z p hp with hle | ⟨x, q, rr, hdecomp, hqpath, hxr, hxopen, hgx⟩
          · exact Or.inl (le_trans (hdec2' z) hle)
          · by_cases hxc : x = cur
            · subst hxc
              cases rr with
              | nil =>
                left
                have hzx : cur = z := by simpa using hxr.2.1
                rw [hdecomp, List.append_nil]
                calc s2.g z ≤ s1.g z := hdec2' z
                  _ = s.g cur := by rw [hzx]
                  _ ≤ _ := hgx
              | cons y rr' =>
                have hexy : IsEdge cur y := (List.chain'_cons.mp hxr.2.2).1
                have hqx : q.getLast? = some cur := hqpath.2.1
                have hgy : s2.g y ≤ ((pathCost options (q ++ [y]) : ℝ) : WithTop ℝ) := by
                  rw [pathCost_snoc options q cur y hqx, WithTop.coe_add]
                  calc s2.g y
                      ≤ s2.g cur
                        + ((segCost options cur y (kindOf cur y) : ℝ) : WithTop ℝ) :=
                        hcurEdges y hexy
                    _ ≤ ((pathCost options q : ℝ) : WithTop ℝ)
                        + ((segCost options cur y (kindOf cur y) : ℝ) : WithTop ℝ) :=
                        add_le_add_right (le_trans (hdec2' cur) hgx) _
                have hqy : PathFromTo (q ++ [y]) origin y := pathFromTo_extend hqpath hexy
                have hyz : PathFromTo (y :: rr') y z :=
                  ⟨rfl, by have h2 := hxr.2.1; rw [List.getLast?_cons_cons] at h2; exact h2,
                   (List.chain'_cons.mp hxr.2.2).2⟩
                have hassoc : q ++ y :: rr' = (q ++ [y]) ++ rr' := by
                  rw [List.append_assoc, List.singleton_append]
                rcases walk_crossing options origin s2 hrel2 rr' (q ++ [y]) y z hqy hyz hgy
                  with hL | ⟨x', q', r'', hd2, a1, a2, a3, a4⟩
                · left
                  rw [hdecomp, hassoc]
                  exact hL
                · right
                  exact ⟨x', q', r'', by rw [hdecomp, hassoc, hd2], a1, a2, a3, a4⟩
            · right
              refine ⟨x, q, rr, hdecomp, hqpath, hxr, ?_, le_trans (hdec2' x) hgx⟩
              apply hsub2
              show x ∈ (hd :: tl).erase cur
              rw [List.mem_erase_of_ne hxc, ← hso]
              exact hxopen
        exact ih s2 s' ⟨⟨core2, hclosed2⟩, hfg2, hq2, hrel2, hcross2⟩ h

/-- The initial search state satisfies the optimality invariant. -/
lemma initState_optInv (options : RouteOptions) (origin : String)
    (start goal : Station) (hs : findStation origin = some start) :
    OInv options origin goal (initState origin start goal) := by
  have hst : stationOf origin = start := stationOf_of_find hs
  refine ⟨initState_inv origin start goal, ?_, ?_, ?_, ?_⟩
  · intro v
    show (if v = origin then ((dist2 start goal : ℝ) : WithTop ℝ) else ⊤)
        = (if v = origin then (0 : WithTop ℝ) else ⊤)
          + ((dist2 (stationOf v) goal : ℝ) : WithTop ℝ)
    by_cases hv : v = origin
    · rw [if_pos hv, if_pos hv, hv, hst, zero_add]
    · rw [if_neg hv, if_neg hv, top_add]
  · intro v u hcf
    cases hcf
  · intro u hu
    left
    by_cases hu' : u = origin
    · rw [hu']
      exact List.mem_singleton_self origin
    · exfalso
      have hgt : (initState origin start goal).g u = ⊤ := by
        show (if u = origin then (0 : WithTop ℝ) else ⊤) = ⊤
        rw [if_neg hu']
      rw [hgt] at hu
      exact absurd hu (lt_irrefl _)
  · intro z p hp
    right
    obtain ⟨hh, hl, hc⟩ := hp
    cases p with
    | nil => cases hh
    | cons a t =>
      have ha : a = origin := by simpa using hh
      subst ha
      refine ⟨a, [a], t, rfl, ⟨rfl, rfl, List.chain'_singleton _⟩, ⟨rfl, hl, hc⟩,
        List.mem_singleton_self a, ?_⟩
      show (if a = a then (0 : WithTop ℝ) else ⊤) ≤ _
      rw [if_pos rfl, pathCost_single]
      exact le_of_eq (WithTop.coe_zero).symm

/-- Path reconstruction telescopes the predecessor-relaxation bounds: the
cost of the rebuilt path is at most the g-score of the chain head plus the
cost of the accumulator. -/
lemma rebuild_cost (options : RouteOptions) (s : SState) (origin : String)
    (hq : ∀ v u, s.cameFrom v = some u →
      s.g u + ((segCost options u v (kindOf u v) : ℝ) : WithTop ℝ) ≤ s.g v)
    (hnn : ∀ v, (0 : WithTop ℝ) ≤ s.g v) :
    ∀ (fuel : ℕ) (last : String) (rest out : List String),
      rebuild s.cameFrom origin fuel (last :: rest) = some out →
      ((pathCost options out : ℝ) : WithTop ℝ)
        ≤ s.g last + ((pathCost options (last :: rest) : ℝ) : WithTop ℝ) := by
  intro fuel
  induction fuel with
  | zero => intro last rest out h; cases h
  | succ n ih =>
    intro last rest out h
    unfold rebuild at h
    dsimp only at h
    by_cases hlo : last = origin
    · rw [if_pos hlo] at h
      obtain rfl := Option.some.inj h
      exact le_add_of_nonneg_left (hnn last)
    · rw [if_neg hlo] at h
      cases hcf : s.cameFrom last with
      | none =>
        rw [hcf] at h
        obtain rfl := Option.some.inj h
        exact le_add_of_nonneg_left (hnn last)
      | some prev =>
        rw [hcf] at h
        calc ((pathCost options out : ℝ) : WithTop ℝ)
            ≤ s.g prev + ((pathCost options (prev :: last :: rest) : ℝ) : WithTop ℝ) :=
              ih prev (last :: rest) out h
          _ = s.g prev + (((segCost options prev last (kindOf prev last)
                + pathCost options (last :: rest) : ℝ)) : WithTop ℝ) := by
              rw [pathCost_cons_cons]
          _ = (s.g prev
                + ((segCost options prev last (kindOf prev last) : ℝ) : WithTop ℝ))
              + ((pathCost options (last :: rest) : ℝ) : WithTop ℝ) := by
              rw [WithTop.coe_add, add_assoc]
          _ ≤ s.g last + ((pathCost options (last :: rest) : ℝ) : WithTop ℝ) :=
              add_le_add_right (hq last prev hcf) _

/-- The reported total is the rounded canonical cost of the reported path. -/
lemma assembled_total (options : RouteOptions) (p : List String) :
    (assembleResult options p).total_cost = round3 (pathCost options p) := by
  rw [assemble_total_cost, assemble_costs]
  rfl

/-- Claim C1, amended: quantifying only over options with
`prefer_fewer_transfers = false` (and a non-negative transfer penalty), a
successful `a_star` result is optimal: its reported total is at most the
cost of every origin-to-destination path plus the 0.001 rounding tolerance,
and it equals the cost of some such path up to that tolerance.  (As stated
over all options the claim is false: see the counterexample.) -/
theorem claim_C1_amended (fuel : ℕ) (o d : String) (options : RouteOptions)
    (r : RouteResult) (hpref : options.prefer_fewer_transfers = false)
    (hpen : 0 ≤ options.transfer_penalty)
    (h : a_star fuel o d options = some (Except.ok r)) :
    (∀ p, PathFromTo p o d → r.total_cost ≤ pathCost options p + 1 / 1000)
    ∧ ∃ q, PathFromTo q o d ∧ |r.total_cost - pathCost options q| ≤ 1 / 1000 := by
  unfold a_star at h
  cases hfo : findStation o with
  | none =>
    rw [hfo] at h
    exact absurd h (by simp)
  | some start =>
    cases hfd : findStation d with
    | none =>
      rw [hfo, hfd] at h
      exact absurd h (by simp)
    | some goal =>
      rw [hfo, hfd] at h
      dsimp only at h
      cases hloop : loopA options goal d fuel (initState o start goal) with
      | none =>
        rw [hloop] at h
        cases h
      | some s =>
        rw [hloop] at h
        dsimp only at h
        obtain ⟨inv, hexit⟩ := loopA_opt options hpen hpref goal d o fuel _ s
          (initState_optInv options o start goal hfo) hloop
        by_cases hnr : s.cameFrom d = none ∧ d ≠ o
        · rw [if_pos hnr] at h
          exact absurd h (by simp)
        · rw [if_neg hnr] at h
          cases hrb : rebuild s.cameFrom o fuel [d] with
          | none =>
            rw [hrb] at h
            cases h
          | some path_ids =>
            rw [hrb] at h
            obtain rfl := Except.ok.inj (Option.some.inj h)
            have hgd_fin : s.g d < ⊤ := by
              rcases not_and_or.mp hnr with hcf | hdo
              · have hsome : (s.cameFrom d).isSome := Option.ne_none_iff_isSome.mp hcf
                exact ((inv.cfDom d).mp hsome).1
              · rw [not_not.mp hdo, inv.gOrigin]
                exact WithTop.coe_lt_top 0
            have hopt : ∀ p, PathFromTo p o d →
                s.g d ≤ ((pathCost options p : ℝ) : WithTop ℝ) := by
              intro p hp
              rcases inv.crossing d p hp with hle | ⟨x, q, rr, hdecomp, hqpath, hxr, hxopen, hgx⟩
              · exact hle
              · rcases hexit with hempty | ⟨hdopen, hmin⟩
                · rw [hempty] at hxopen
                  cases hxopen
                · have hfdx := hmin x hxopen
                  have hsfd : s.f d = s.g d := by
                    rw [inv.fg d, stationOf_of_find hfd, dist2_self]
                    simp
                  have hrem : dist2 (stationOf x) goal ≤ pathCost options (x :: rr) := by
                    have hdl := dist_le_pathCost options hpen (x :: rr) x d rfl
                      hxr.2.1 hxr.2.2
                    rw [stationOf_of_find hfd] at hdl
                    exact hdl
                  rw [hdecomp, pathCost_append options q rr x hqpath.2.1, WithTop.coe_add]
                  calc s.g d = s.f d := hsfd.symm
                    _ ≤ s.f x := hfdx
                    _ = s.g x + ((dist2 (stationOf x) goal : ℝ) : WithTop ℝ) := inv.fg x
                    _ ≤ ((pathCost options q : ℝ) : WithTop ℝ)
                        + ((dist2 (stationOf x) goal : ℝ) : WithTop ℝ) :=
                        add_le_add_right hgx _
                    _ ≤ ((pathCost options q : ℝ) : WithTop ℝ)
                        + ((pathCost options (x :: rr) : ℝ) : WithTop ℝ) :=
                        add_le_add_left (by exact_mod_cast hrem) _
            have hreach : CFReach s.cameFrom o d := inv.cfReach d hgd_fin
            obtain ⟨hhead, hlast, hchain⟩ := rebuild_spec s.cameFrom o inv.cfEdge fuel
              d [] path_ids hreach (List.chain'_singleton d) hrb
            have hpath : PathFromTo path_ids o d := ⟨hhead, by simpa using hlast, hchain⟩
            have hcost_le : ((pathCost options path_ids : ℝ) : WithTop ℝ) ≤ s.g d := by
              calc ((pathCost options path_ids : ℝ) : WithTop ℝ)
                  ≤ s.g d + ((pathCost options [d] : ℝ) : WithTop ℝ) :=
                    rebuild_cost options s o inv.cfMonoQ inv.gNonneg fuel d [] path_ids hrb
                _ = s.g d := by rw [pathCost_single]; simp
            obtain ⟨c, hc⟩ := WithTop.ne_top_iff_exists.mp (ne_of_lt hgd_fin)
            have h1 : pathCost options path_ids ≤ c := by
              have h1' := hcost_le
              rw [← hc] at h1'
              exact_mod_cast h1'
            have h2 : ∀ p, PathFromTo p o d → c ≤ pathCost options p := by
              intro p hp
              have h2' := hopt p hp
              rw [← hc] at h2'
              exact_mod_cast h2'
            have htc : (assembleResult options path_ids).total_cost
                = round3 (pathCost options path_ids) := assembled_total options path_ids
            have habs := abs_le.mp (round3_close (pathCost options path_ids))
            constructor
            · intro p hp
              have hcp := h2 p hp
              rw [htc]
              have hd1 := habs.1
              have hd2 := habs.2
              have hq1 := h1
              linarith
            · refine ⟨path_ids, hpath, ?_⟩
              rw [htc]
              calc |round3 (pathCost options path_ids) - pathCost options path_ids|
                  ≤ 1 / 2000 := round3_close (pathCost options path_ids)
                _ ≤ 1 / 1000 := by norm_num

/-- Witness for the amended C1 at the evaluated El Rosario run: the default
options have the tie-break off, and the returned route is optimal within the
rounding tolerance. -/
theorem claim_C1_witness :
    (∀ p, PathFromTo p "l6_el_rosario" "l6_tezozomoc" →
      (assembleResult {} ["l6_el_rosario", "l6_tezozomoc"]).total_cost
        ≤ pathCost {} p + 1 / 1000)
    ∧ ∃ q, PathFromTo q "l6_el_rosario" "l6_tezozomoc"
        ∧ |(assembleResult {} ["l6_el_rosario", "l6_tezozomoc"]).total_cost
            - pathCost {} q| ≤ 1 / 1000 :=
  claim_C1_amended 2 "l6_el_rosario" "l6_tezozomoc" {} _ rfl (by norm_num) rosario_run

/-! ### Counterexample instance for claim C1 -/

set_option maxRecDepth 1000000 in
lemma d2x_sl_cand : dist2 (stationOf "l1_san_lazaro") (stationOf "l1_candelaria") = 4 := by
  show Real.sqrt (((82:ℝ) - 78) ^ 2 + ((44:ℝ) - 44) ^ 2) = 4
  rw [show ((82:ℝ) - 78) ^ 2 + ((44:ℝ) - 44) ^ 2 = 4 ^ 2 by norm_num]
  exact Real.sqrt_sq (by norm_num)

set_option maxRecDepth 1000000 in
lemma d2x_sl_moct : dist2 (stationOf "l1_san_lazaro") (stationOf "l1_moctezuma") = 4 := by
  show Real.sqrt (((82:ℝ) - 86) ^ 2 + ((44:ℝ) - 44) ^ 2) = 4
  rw [show ((82:ℝ) - 86) ^ 2 + ((44:ℝ) - 44) ^ 2 = 4 ^ 2 by norm_num]
  exact Real.sqrt_sq (by norm_num)

set_option maxRecDepth 1000000 in
lemma d2x_sl_lbsl : dist2 (stationOf "l1_san_lazaro") (stationOf "lb_san_lazaro") = 0 := by
  show Real.sqrt (((82:ℝ) - 82) ^ 2 + ((44:ℝ) - 44) ^ 2) = 0
  rw [show ((82:ℝ) - 82) ^ 2 + ((44:ℝ) - 44) ^ 2 = 0 ^ 2 by norm_num]
  exact Real.sqrt_sq (by norm_num)

set_option maxRecDepth 1000000 in
lemma d2x_cand_merc : dist2 (stationOf "l1_candelaria") (stationOf "l1_merced") = 4 := by
  show Real.sqrt (((78:ℝ) - 74) ^ 2 + ((44:ℝ) - 44) ^ 2) = 4
  rw [show ((78:ℝ) - 74) ^ 2 + ((44:ℝ) - 44) ^ 2 = 4 ^ 2 by norm_num]
  exact Real.sqrt_sq (by norm_num)

set_option maxRecDepth 1000000 in
lemma d2x_cand_sl : dist2 (stationOf "l1_candelaria") (stationOf "l1_san_lazaro") = 4 := by
  show Real.sqrt (((78:ℝ) - 82) ^ 2 + ((44:ℝ) - 44) ^ 2) = 4
  rw [show ((78:ℝ) - 82) ^ 2 + ((44:ℝ) - 44) ^ 2 = 4 ^ 2 by norm_num]
  exact Real.sqrt_sq (by norm_num)

set_option maxRecDepth 1000000 in
lemma d2x_cand_l4c : dist2 (stationOf "l1_candelaria") (stationOf "l4_candelaria") = 0 := by
  show Real.sqrt (((78:ℝ) - 78) ^ 2 + ((44:ℝ) - 44) ^ 2) = 0
  rw [show ((78:ℝ) - 78) ^ 2 + ((44:ℝ) - 44) ^ 2 = 0 ^ 2 by norm_num]
  exact Real.sqrt_sq (by norm_num)

set_option maxRecDepth 1000000 in
lemma d2x_lbsl_lbm : dist2 (stationOf "lb_san_lazaro") (stationOf "lb_morelos") = Real.sqrt 244 := by
  show Real.sqrt (((82:ℝ) - 72) ^ 2 + ((44:ℝ) - 32) ^ 2) = Real.sqrt 244
  norm_num

set_option maxRecDepth 1000000 in
lemma d2x_lbsl_fmag : dist2 (stationOf "lb_san_lazaro") (stationOf "lb_r_flores_magon") = Real.sqrt 52 := by
  show Real.sqrt (((82:ℝ) - 86) ^ 2 + ((44:ℝ) - 38) ^ 2) = Real.sqrt 52
  norm_num

set_option maxRecDepth 1000000 in
lemma d2x_lbsl_sl : dist2 (stationOf "lb_san_lazaro") (stationOf "l1_san_lazaro") = 0 := by
  show Real.sqrt (((82:ℝ) - 82) ^ 2 + ((44:ℝ) - 44) ^ 2) = 0
  rw [show ((82:ℝ) - 82) ^ 2 + ((44:ℝ) - 44) ^ 2 = 0 ^ 2 by norm_num]
  exact Real.sqrt_sq (by norm_num)

set_option maxRecDepth 1000000 in
lemma d2x_lbm_tep : dist2 (stationOf "lb_morelos") (stationOf "lb_tepito") = 4 := by
  show Real.sqrt (((72:ℝ) - 68) ^ 2 + ((32:ℝ) - 32) ^ 2) = 4
  rw [show ((72:ℝ) - 68) ^ 2 + ((32:ℝ) - 32) ^ 2 = 4 ^ 2 by norm_num]
  exact Real.sqrt_sq (by norm_num)

set_option maxRecDepth 1000000 in
lemma d2x_lbm_lbsl : dist2 (stationOf "lb_morelos") (stationOf "lb_san_lazaro") = Real.sqrt 244 := by
  show Real.sqrt (((72:ℝ) - 82) ^ 2 + ((32:ℝ) - 44) ^ 2) = Real.sqrt 244
  norm_num

set_option maxRecDepth 1000000 in
lemma d2x_lbm_l4m : dist2 (stationOf "lb_morelos") (stationOf "l4_morelos") = 0 := by
  show Real.sqrt (((72:ℝ) - 72) ^ 2 + ((32:ℝ) - 32) ^ 2) = 0
  rw [show ((72:ℝ) - 72) ^ 2 + ((32:ℝ) - 32) ^ 2 = 0 ^ 2 by norm_num]
  exact Real.sqrt_sq (by norm_num)

set_option maxRecDepth 1000000 in
lemma d2x_l4c_l4m : dist2 (stationOf "l4_candelaria") (stationOf "l4_morelos") = Real.sqrt 180 := by
  show Real.sqrt (((78:ℝ) - 72) ^ 2 + ((44:ℝ) - 32) ^ 2) = Real.sqrt 180
  norm_num

set_option maxRecDepth 1000000 in
lemma d2x_l4c_fray : dist2 (stationOf "l4_candelaria") (stationOf "l4_fray_servando") = Real.sqrt 40 := by
  show Real.sqrt (((78:ℝ) - 76) ^ 2 + ((44:ℝ) - 50) ^ 2) = Real.sqrt 40
  norm_num

set_option maxRecDepth 1000000 in
lemma d2x_l4c_cand : dist2 (stationOf "l4_candelaria") (stationOf "l1_candelaria") = 0 := by
  show Real.sqrt (((78:ℝ) - 78) ^ 2 + ((44:ℝ) - 44) ^ 2) = 0
  rw [show ((78:ℝ) - 78) ^ 2 + ((44:ℝ) - 44) ^ 2 = 0 ^ 2 by norm_num]
  exact Real.sqrt_sq (by norm_num)

set_option maxRecDepth 1000000 in
lemma d2x_sl_l4m : dist2 (stationOf "l1_san_lazaro") (stationOf "l4_morelos") = Real.sqrt 244 := by
  show Real.sqrt (((82:ℝ) - 72) ^ 2 + ((44:ℝ) - 32) ^ 2) = Real.sqrt 244
  norm_num

set_option maxRecDepth 1000000 in
lemma d2x_cand_l4m : dist2 (stationOf "l1_candelaria") (stationOf "l4_morelos") = Real.sqrt 180 := by
  show Real.sqrt (((78:ℝ) - 72) ^ 2 + ((44:ℝ) - 32) ^ 2) = Real.sqrt 180
  norm_num

set_option maxRecDepth 1000000 in
lemma d2x_moct_l4m : dist2 (stationOf "l1_moctezuma") (stationOf "l4_morelos") = Real.sqrt 340 := by
  show Real.sqrt (((86:ℝ) - 72) ^ 2 + ((44:ℝ) - 32) ^ 2) = Real.sqrt 340
  norm_num

set_option maxRecDepth 1000000 in
lemma d2x_lbsl_l4m : dist2 (stationOf "lb_san_lazaro") (stationOf "l4_morelos") = Real.sqrt 244 := by
  show Real.sqrt (((82:ℝ) - 72) ^ 2 + ((44:ℝ) - 32) ^ 2) = Real.sqrt 244
  norm_num

set_option maxRecDepth 1000000 in
lemma d2x_merc_l4m : dist2 (stationOf "l1_merced") (stationOf "l4_morelos") = Real.sqrt 148 := by
  show Real.sqrt (((74:ℝ) - 72) ^ 2 + ((44:ℝ) - 32) ^ 2) = Real.sqrt 148
  norm_num

set_option maxRecDepth 1000000 in
lemma d2x_fmag_l4m : dist2 (stationOf "lb_r_flores_magon") (stationOf "l4_morelos") = Real.sqrt 232 := by
  show Real.sqrt (((86:ℝ) - 72) ^ 2 + ((38:ℝ) - 32) ^ 2) = Real.sqrt 232
  norm_num

set_option maxRecDepth 1000000 in
lemma d2x_tep_l4m : dist2 (stationOf "lb_tepito") (stationOf "l4_morelos") = 4 := by
  show Real.sqrt (((68:ℝ) - 72) ^ 2 + ((32:ℝ) - 32) ^ 2) = 4
  rw [show ((68:ℝ) - 72) ^ 2 + ((32:ℝ) - 32) ^ 2 = 4 ^ 2 by norm_num]
  exact Real.sqrt_sq (by norm_num)

lemma d2x_l4m_l4m : dist2 (stationOf "l4_morelos") (stationOf "l4_morelos") = 0 :=
  dist2_self _

set_option maxRecDepth 1000000 in
lemma d2x_fray_l4m : dist2 (stationOf "l4_fray_servando") (stationOf "l4_morelos") = Real.sqrt 340 := by
  show Real.sqrt (((76:ℝ) - 72) ^ 2 + ((50:ℝ) - 32) ^ 2) = Real.sqrt 340
  norm_num

lemma ecX_line (su sv : Station) :
    edgeCost { transfer_penalty := 1.5, prefer_fewer_transfers := true } su sv "line" = dist2 su sv := by
  have h1 : ("offpeak" : String) ≠ "peak" := by decide
  have h2 : ("line" : String) ≠ "transfer" := by decide
  unfold edgeCost
  simp [h1, h2]

lemma ecX_transfer (su sv : Station) :
    edgeCost { transfer_penalty := 1.5, prefer_fewer_transfers := true } su sv "transfer" = dist2 su sv + 1.5 := by
  have h1 : ("normal" : String) ≠ "reduced" := by decide
  have h2 : ("transfer" : String) ≠ "line" := by decide
  unfold edgeCost
  simp [h1, h2]

set_option maxRecDepth 1000000 in
lemma findX_sl : findStation "l1_san_lazaro" = some (stationOf "l1_san_lazaro") := rfl

set_option maxRecDepth 1000000 in
lemma findX_l4m : findStation "l4_morelos" = some (stationOf "l4_morelos") := rfl

set_option maxRecDepth 1000000 in
lemma nbX_sl : neighborsOf { transfer_penalty := 1.5, prefer_fewer_transfers := true } "l1_san_lazaro"
    = [("l1_candelaria",
        edgeCost { transfer_penalty := 1.5, prefer_fewer_transfers := true }
          (stationOf "l1_san_lazaro") (stationOf "l1_candelaria") "line", "line", some "1"),
       ("l1_moctezuma",
        edgeCost { transfer_penalty := 1.5, prefer_fewer_transfers := true }
          (stationOf "l1_san_lazaro") (stationOf "l1_moctezuma") "line", "line", some "1"),
       ("lb_san_lazaro",
        edgeCost { transfer_penalty := 1.5, prefer_fewer_transfers := true }
          (stationOf "l1_san_lazaro") (stationOf "lb_san_lazaro") "transfer", "transfer", none)] := rfl

set_option maxRecDepth 1000000 in
lemma nbX_cand : neighborsOf { transfer_penalty := 1.5, prefer_fewer_transfers := true } "l1_candelaria"
    = [("l1_merced",
        edgeCost { transfer_penalty := 1.5, prefer_fewer_transfers := true }
          (stationOf "l1_candelaria") (stationOf "l1_merced") "line", "line", some "1"),
       ("l1_san_lazaro",
        edgeCost { transfer_penalty := 1.5, prefer_fewer_transfers := true }
          (stationOf "l1_candelaria") (stationOf "l1_san_lazaro") "line", "line", some "1"),
       ("l4_candelaria",
        edgeCost { transfer_penalty := 1.5, prefer_fewer_transfers := true }
          (stationOf "l1_candelaria") (stationOf "l4_candelaria") "transfer", "transfer", none)] := rfl

set_option maxRecDepth 1000000 in
lemma nbX_lbsl : neighborsOf { transfer_penalty := 1.5, prefer_fewer_transfers := true } "lb_san_lazaro"
    = [("lb_morelos",
        edgeCost { transfer_penalty := 1.5, prefer_fewer_transfers := true }
          (stationOf "lb_san_lazaro") (stationOf "lb_morelos") "line", "line", some "B"),
       ("lb_r_flores_magon",
        edgeCost { transfer_penalty := 1.5, prefer_fewer_transfers := true }
          (stationOf "lb_san_lazaro") (stationOf "lb_r_flores_magon") "line", "line", some "B"),
       ("l1_san_lazaro",
        edgeCost { transfer_penalty := 1.5, prefer_fewer_transfers := true }
          (stationOf "lb_san_lazaro") (stationOf "l1_san_lazaro") "transfer", "transfer", none)] := rfl

set_option maxRecDepth 1000000 in
lemma nbX_lbm : neighborsOf { transfer_penalty := 1.5, prefer_fewer_transfers := true } "lb_morelos"
    = [("lb_tepito",
        edgeCost { transfer_penalty := 1.5, prefer_fewer_transfers := true }
          (stationOf "lb_morelos") (stationOf "lb_tepito") "line", "line", some "B"),
       ("lb_san_lazaro",
        edgeCost { transfer_penalty := 1.5, prefer_fewer_transfers := true }
          (stationOf "lb_morelos") (stationOf "lb_san_lazaro") "line", "line", some "B"),
       ("l4_morelos",
        edgeCost { transfer_penalty := 1.5, prefer_fewer_transfers := true }
          (stationOf "lb_morelos") (stationOf "l4_morelos") "transfer", "transfer", none)] := rfl

set_option maxRecDepth 1000000 in
lemma nbX_l4c : neighborsOf { transfer_penalty := 1.5, prefer_fewer_transfers := true } "l4_candelaria"
    = [("l4_morelos",
        edgeCost { transfer_penalty := 1.5, prefer_fewer_transfers := true }
          (stationOf "l4_candelaria") (stationOf "l4_morelos") "line", "line", some "4"),
       ("l4_fray_servando",
        edgeCost { transfer_penalty := 1.5, prefer_fewer_transfers := true }
          (stationOf "l4_candelaria") (stationOf "l4_fray_servando") "line", "line", some "4"),
       ("l1_candelaria",
        edgeCost { transfer_penalty := 1.5, prefer_fewer_transfers := true }
          (stationOf "l4_candelaria") (stationOf "l1_candelaria") "transfer", "transfer", none)] := rfl

set_option maxRecDepth 1000000 in
set_option maxHeartbeats 4000000 in
/-- A fully evaluated six-iteration search: San Lázaro (line 1) to Morelos
(line 4) with transfer penalty 1.5 and `prefer_fewer_transfers = true`.  The
search returns the line 1 → line 4 route via Candelaria. -/
lemma sanlazaro_run :
    a_star 6 "l1_san_lazaro" "l4_morelos"
        { transfer_penalty := 1.5, prefer_fewer_transfers := true }
      = some (Except.ok (assembleResult
          { transfer_penalty := 1.5, prefer_fewer_transfers := true }
          ["l1_san_lazaro", "l1_candelaria", "l4_candelaria", "l4_morelos"])) := by
  have sq40 : Real.sqrt 40 ^ 2 = 40 := Real.sq_sqrt (by norm_num)
  have nn40 : (0:ℝ) ≤ Real.sqrt 40 := Real.sqrt_nonneg 40
  have lo40 : (6.32:ℝ) < Real.sqrt 40 := by nlinarith [sq40, nn40]
  have hi40 : Real.sqrt 40 < 6.33 := by nlinarith [sq40, nn40]
  have sq52 : Real.sqrt 52 ^ 2 = 52 := Real.sq_sqrt (by norm_num)
  have nn52 : (0:ℝ) ≤ Real.sqrt 52 := Real.sqrt_nonneg 52
  have lo52 : (7.21:ℝ) < Real.sqrt 52 := by nlinarith [sq52, nn52]
  have hi52 : Real.sqrt 52 < 7.22 := by nlinarith [sq52, nn52]
  have sq148 : Real.sqrt 148 ^ 2 = 148 := Real.sq_sqrt (by norm_num)
  have nn148 : (0:ℝ) ≤ Real.sqrt 148 := Real.sqrt_nonneg 148
  have lo148 : (12.16:ℝ) < Real.sqrt 148 := by nlinarith [sq148, nn148]
  have hi148 : Real.sqrt 148 < 12.17 := by nlinarith [sq148, nn148]
  have sq180 : Real.sqrt 180 ^ 2 = 180 := Real.sq_sqrt (by norm_num)
  have nn180 : (0:ℝ) ≤ Real.sqrt 180 := Real.sqrt_nonneg 180
  have lo180 : (13.41:ℝ) < Real.sqrt 180 := by nlinarith [sq180, nn180]
  have hi180 : Real.sqrt 180 < 13.42 := by nlinarith [sq180, nn180]
  have sq232 : Real.sqrt 232 ^ 2 = 232 := Real.sq_sqrt (by norm_num)
  have nn232 : (0:ℝ) ≤ Real.sqrt 232 := Real.sqrt_nonneg 232
  have lo232 : (15.23:ℝ) < Real.sqrt 232 := by nlinarith [sq232, nn232]
  have hi232 : Real.sqrt 232 < 15.24 := by nlinarith [sq232, nn232]
  have sq244 : Real.sqrt 244 ^ 2 = 244 := Real.sq_sqrt (by norm_num)
  have nn244 : (0:ℝ) ≤ Real.sqrt 244 := Real.sqrt_nonneg 244
  have lo244 : (15.62:ℝ) < Real.sqrt 244 := by nlinarith [sq244, nn244]
  have hi244 : Real.sqrt 244 < 15.63 := by nlinarith [sq244, nn244]
  have sq340 : Real.sqrt 340 ^ 2 = 340 := Real.sq_sqrt (by norm_num)
  have nn340 : (0:ℝ) ≤ Real.sqrt 340 := Real.sqrt_nonneg 340
  have lo340 : (18.43:ℝ) < Real.sqrt 340 := by nlinarith [sq340, nn340]
  have hi340 : Real.sqrt 340 < 18.44 := by nlinarith [sq340, nn340]
  have A1 : ¬((4:ℝ) + Real.sqrt 340 < 4 + Real.sqrt 180) := not_lt.mpr (by linarith)
  have A2 : ¬((4:ℝ) + Real.sqrt 340 = 4 + Real.sqrt 180) := ne_of_gt (by linarith)
  have A3 : ¬((2:ℝ) + Real.sqrt 244 < 4 + Real.sqrt 180) := not_lt.mpr (by linarith)
  have A4 : ¬((2:ℝ) + Real.sqrt 244 = 4 + Real.sqrt 180) := ne_of_gt (by linarith)
  have A5 : (2:ℝ) + Real.sqrt 244 < 4 + Real.sqrt 340 := by linarith
  have A6 : ¬((8:ℝ) + Real.sqrt 148 < 2 + Real.sqrt 244) := not_lt.mpr (by linarith)
  have A7 : ¬((8:ℝ) + Real.sqrt 148 = 2 + Real.sqrt 244) := ne_of_gt (by linarith)
  have A8 : ¬((6:ℝ) + Real.sqrt 180 < 2 + Real.sqrt 244) := not_lt.mpr (by linarith)
  have A9 : ¬((6:ℝ) + Real.sqrt 180 = 2 + Real.sqrt 244) := ne_of_gt (by linarith)
  have A10 : (8:ℝ) + Real.sqrt 148 < 4 + Real.sqrt 340 := by linarith
  have A11 : (6:ℝ) + Real.sqrt 180 < 8 + Real.sqrt 148 := by linarith
  have A12 : (2:ℝ) + Real.sqrt 244 < 6 + Real.sqrt 180 := by linarith
  have A13 : ¬((2:ℝ) + Real.sqrt 52 + Real.sqrt 232 < 2 + Real.sqrt 244) := not_lt.mpr (by linarith)
  have A14 : ¬((2:ℝ) + Real.sqrt 52 + Real.sqrt 232 = 2 + Real.sqrt 244) := ne_of_gt (by linarith)
  have A15 : ¬((2:ℝ) + Real.sqrt 244 + Real.sqrt 244 < 2) := not_lt.mpr (by linarith)
  have A16 : ¬((2:ℝ) + Real.sqrt 52 + Real.sqrt 232 < 6 + Real.sqrt 180) := not_lt.mpr (by linarith)
  have A17 : ¬((2:ℝ) + Real.sqrt 52 + Real.sqrt 232 = 6 + Real.sqrt 180) := ne_of_gt (by linarith)
  have A18 : ¬((2:ℝ) + Real.sqrt 244 + 4 + 4 < 6 + Real.sqrt 180) := not_lt.mpr (by linarith)
  have A19 : ¬((2:ℝ) + Real.sqrt 244 + 4 + 4 = 6 + Real.sqrt 180) := ne_of_gt (by linarith)
  have A20 : ¬((2:ℝ) + Real.sqrt 244 + 1.5 + 0.5 < 6 + Real.sqrt 180) := not_lt.mpr (by linarith)
  have A21 : ¬((2:ℝ) + Real.sqrt 244 + 1.5 + 0.5 = 6 + Real.sqrt 180) := ne_of_gt (by linarith)
  have A22 : (6:ℝ) + Real.sqrt 180 < 2 + Real.sqrt 244 + 1.5 + 0.5 := by linarith
  have A23 : ¬((2:ℝ) + Real.sqrt 52 + Real.sqrt 232 < 8 + Real.sqrt 148) := not_lt.mpr (by linarith)
  have A24 : ¬((2:ℝ) + Real.sqrt 52 + Real.sqrt 232 = 8 + Real.sqrt 148) := ne_of_gt (by linarith)
  have A25 : ¬((2:ℝ) + Real.sqrt 244 + 4 + 4 < 8 + Real.sqrt 148) := not_lt.mpr (by linarith)
  have A26 : ¬((2:ℝ) + Real.sqrt 244 + 4 + 4 = 8 + Real.sqrt 148) := ne_of_gt (by linarith)
  have A27 : ¬((6:ℝ) + Real.sqrt 40 + Real.sqrt 340 < 6 + Real.sqrt 180) := not_lt.mpr (by linarith)
  have A28 : ¬((6:ℝ) + Real.sqrt 40 + Real.sqrt 340 = 6 + Real.sqrt 180) := ne_of_gt (by linarith)
  have A29 : ¬((8:ℝ) < 0) := by norm_num
  have A30 : ¬((4:ℝ) < 0) := by norm_num
  have A31 : ¬((8:ℝ) < 4) := by norm_num
  have L1 : (1.5 + 0.5 : ℝ) = 2 := by norm_num
  have L2 : (4 + 4 : ℝ) = 8 := by norm_num
  have L3 : (4 + 1.5 + 0.5 : ℝ) = 6 := by norm_num
  have L4 : (2 + 1.5 + 0.5 : ℝ) = 4 := by norm_num
  have L5 : (6 + 1.5 + 0.5 : ℝ) = 8 := by norm_num
  simp only [a_star, loopA, rebuild, initState, selectMin, relaxOne, keyLt,
    findX_sl, findX_l4m, nbX_sl, nbX_cand, nbX_lbsl, nbX_lbm, nbX_l4c,
    ecX_line, ecX_transfer,
    d2x_sl_cand, d2x_sl_moct, d2x_sl_lbsl, d2x_cand_merc, d2x_cand_sl, d2x_cand_l4c, d2x_lbsl_lbm, d2x_lbsl_fmag, d2x_lbsl_sl, d2x_lbm_tep, d2x_lbm_lbsl, d2x_lbm_l4m, d2x_l4c_l4m, d2x_l4c_fray, d2x_l4c_cand, d2x_sl_l4m, d2x_cand_l4m, d2x_moct_l4m, d2x_lbsl_l4m, d2x_merc_l4m, d2x_fmag_l4m, d2x_tep_l4m, d2x_l4m_l4m, d2x_fray_l4m,
    List.foldl, List.erase, List.cons_append, List.nil_append,
    List.mem_cons, List.mem_singleton, List.not_mem_nil,
    String.reduceEq, String.reduceBEq, Nat.reduceAdd, reduceIte,
    if_true, if_false, ite_true, ite_false,
    and_true, true_and, and_false, false_and, or_true, true_or, or_false, false_or,
    not_true, not_false_iff, eq_self_iff_true, ne_eq, lt_self_iff_false,
    Option.some_ne_none,
    A1, A2, A3, A4, A5, A6, A7, A8, A9, A10, A11, A12, A13, A14, A15, A16, A17,
    A18, A19, A20, A21, A22, A23, A24, A25, A26, A27, A28, A29, A30, A31,
    L1, L2, L3, L4, L5,
    ← WithTop.coe_zero, ← WithTop.coe_add, WithTop.coe_lt_top, WithTop.coe_lt_coe,
    WithTop.coe_eq_coe, zero_add, add_zero]

set_option maxRecDepth 1000000 in
/-- Claim C1 (as stated, for every `RouteOptions` value) is false: with
`prefer_fewer_transfers = true` and penalty 1.5, the search adds 0.5 to each
transfer edge during relaxation but reports unadjusted totals, so from San
Lázaro to Morelos it returns the Candelaria route with total
`round3 (5.5 + √180) ≈ 18.916` although the line B path costs
`3 + √244 ≈ 18.620`, more than 0.001 cheaper. -/
theorem claim_C1_counterexample :
    ∃ (fuel : ℕ) (o d : String) (options : RouteOptions) (r : RouteResult)
      (p : List String),
      o ≠ d ∧ a_star fuel o d options = some (Except.ok r)
      ∧ PathFromTo p o d ∧ pathCost options p + 1 / 1000 < r.total_cost := by
  have kq1 : kindOf "l1_san_lazaro" "lb_san_lazaro" = "transfer" := by decide
  have kq2 : kindOf "lb_san_lazaro" "lb_morelos" = "line" := by decide
  have kq3 : kindOf "lb_morelos" "l4_morelos" = "transfer" := by decide
  have kr1 : kindOf "l1_san_lazaro" "l1_candelaria" = "line" := by decide
  have kr2 : kindOf "l1_candelaria" "l4_candelaria" = "transfer" := by decide
  have kr3 : kindOf "l4_candelaria" "l4_morelos" = "line" := by decide
  have hQ : pathCost { transfer_penalty := 1.5, prefer_fewer_transfers := true }
      ["l1_san_lazaro", "lb_san_lazaro", "lb_morelos", "l4_morelos"]
      = 3 + Real.sqrt 244 := by
    simp only [pathCost_cons_cons, pathCost_single, kq1, kq2, kq3,
      segCost_edge_transfer, segCost_edge_line, ecX_transfer, ecX_line,
      d2x_sl_lbsl, d2x_lbsl_lbm, d2x_lbm_l4m]
    ring
  have hR : pathCost { transfer_penalty := 1.5, prefer_fewer_transfers := true }
      ["l1_san_lazaro", "l1_candelaria", "l4_candelaria", "l4_morelos"]
      = 5.5 + Real.sqrt 180 := by
    simp only [pathCost_cons_cons, pathCost_single, kr1, kr2, kr3,
      segCost_edge_transfer, segCost_edge_line, ecX_transfer, ecX_line,
      d2x_sl_cand, d2x_cand_l4c, d2x_l4c_l4m]
    ring
  have sq180 : Real.sqrt 180 ^ 2 = 180 := Real.sq_sqrt (by norm_num)
  have nn180 : (0:ℝ) ≤ Real.sqrt 180 := Real.sqrt_nonneg 180
  have lo180 : (13.41:ℝ) < Real.sqrt 180 := by nlinarith [sq180, nn180]
  have sq244 : Real.sqrt 244 ^ 2 = 244 := Real.sq_sqrt (by norm_num)
  have nn244 : (0:ℝ) ≤ Real.sqrt 244 := Real.sqrt_nonneg 244
  have hi244 : Real.sqrt 244 < 15.63 := by nlinarith [sq244, nn244]
  have hpath : PathFromTo ["l1_san_lazaro", "lb_san_lazaro", "lb_morelos", "l4_morelos"]
      "l1_san_lazaro" "l4_morelos" := by
    refine ⟨rfl, rfl, ?_⟩
    simp only [List.chain'_cons, List.chain'_singleton, and_true]
    exact ⟨by decide, by decide, by decide⟩
  refine ⟨6, "l1_san_lazaro", "l4_morelos",
    { transfer_penalty := 1.5, prefer_fewer_transfers := true },
    assembleResult { transfer_penalty := 1.5, prefer_fewer_transfers := true }
      ["l1_san_lazaro", "l1_candelaria", "l4_candelaria", "l4_morelos"],
    ["l1_san_lazaro", "lb_san_lazaro", "lb_morelos", "l4_morelos"],
    by decide, sanlazaro_run, hpath, ?_⟩
  rw [assembled_total, hR, hQ]
  have habs := abs_le.mp (round3_close (5.5 + Real.sqrt 180))
  have habs1 := habs.1
  linarith

end Metro
